import Mathlib

/-!
# A verification development for the SDPSES driver stack

Shallow embedding of the core of the SDPSES repository (fixed-capacity
circular byte queue, free-running counter, and the interrupt-driven UART
drivers for the Altera Nios II and Xilinx MicroBlaze platforms), with
theorems settling the specification's claims about them.

Machine integers are modelled as `Nat` with explicit `% 2^32` where the
32-bit wraparound of the C code matters.  Hardware register accesses are
made explicit: register reads are inputs (or an oracle indexed by time),
and register writes are recorded in the result.

The file is organised as definitions first (each translated from the named
source function), then theorems.
-/

namespace Sdpses

/-! ## FixedQueue — `src/container/queue/fixed/fixed_queue_inline.h`

The template `FixedQueue<T>` instantiated at bytes.  The backing array
`elements_` is modelled as a total function `Nat → Nat` (cells outside
`[0, sizeMax)` are never read by code respecting the preconditions). -/

structure FixedQueue where
  sizeMax : Nat
  head : Nat
  tail : Nat
  size : Nat
  elements : Nat → Nat

namespace FixedQueue

/-- `FixedQueue(size_max)`: freshly constructed queue (head = tail = size = 0). -/
def mkQueue (size_max : Nat) : FixedQueue :=
  { sizeMax := size_max, head := 0, tail := 0, size := 0, elements := fun _ => 0 }

/-- `clear()`: resets head/tail/size, leaves storage untouched. -/
def clear (q : FixedQueue) : FixedQueue :=
  { q with head := 0, tail := 0, size := 0 }

/-- `push(element)`: stores at `tail_`, advances `tail_` with
"increment, then reset to zero if equal to `kSIZE_MAX`", increments `size_`.
Precondition (not full) is the caller's burden, as in the source. -/
def push (q : FixedQueue) (x : Nat) : FixedQueue :=
  { q with
    elements := fun j => if j = q.tail then x else q.elements j
    tail := if q.tail + 1 = q.sizeMax then 0 else q.tail + 1
    size := q.size + 1 }

/-- `pop()`: advances `head_` with the same wraparound pattern, decrements `size_`. -/
def pop (q : FixedQueue) : FixedQueue :=
  { q with
    head := if q.head + 1 = q.sizeMax then 0 else q.head + 1
    size := q.size - 1 }

/-- `peek()` / `front()`: the element at `head_`. -/
def peek (q : FixedQueue) : Nat :=
  q.elements q.head

/-- `empty()`: `(size_) ? false : true`. -/
def emptyQ (q : FixedQueue) : Bool :=
  decide (q.size = 0)

/-- `full()`: `(size_ < kSIZE_MAX) ? false : true`. -/
def fullQ (q : FixedQueue) : Bool :=
  decide (q.sizeMax ≤ q.size)

/-- `availableSize()`: `kSIZE_MAX - size_`. -/
def availableSize (q : FixedQueue) : Nat :=
  q.sizeMax - q.size

/-- `maxSize()`: `kSIZE_MAX`. -/
def maxSize (q : FixedQueue) : Nat :=
  q.sizeMax

/-- Representation invariant maintained by the precondition-respecting use
of the queue: cursors in range, occupancy bounded by capacity, and the
write cursor sits `size` slots (mod capacity) after the read cursor. -/
def Inv (q : FixedQueue) : Prop :=
  q.head < q.sizeMax ∧ q.size ≤ q.sizeMax ∧ q.tail = (q.head + q.size) % q.sizeMax

instance (q : FixedQueue) : Decidable q.Inv := by
  unfold Inv; infer_instance

/-- Abstraction: the logical contents of the circular buffer, front first. -/
def toList (q : FixedQueue) : List Nat :=
  (List.range q.size).map (fun i => q.elements ((q.head + i) % q.sizeMax))

/-- The read loops of `read(buf, n)`: `n` times `buf[i] = peek(); pop()`. -/
def popN : Nat → FixedQueue → List Nat × FixedQueue
  | 0, q => ([], q)
  | n + 1, q =>
      let r := popN n q.pop
      (q.peek :: r.1, r.2)

/-- The write loops of `write(buf, n)`: push each byte of the buffer in order. -/
def pushAll (q : FixedQueue) (l : List Nat) : FixedQueue :=
  l.foldl push q

end FixedQueue

/-! ### Operation scripts over the queue (for the FIFO law) -/

/-- An abstract `push`/`pop` script run against the queue. -/
inductive QOp where
  | pushOp (x : Nat) : QOp
  | popOp : QOp
deriving DecidableEq

/-- Run a script; also collect the value observed by `peek`/`front`
immediately before each `pop`. -/
def runOps (q : FixedQueue) : List QOp → FixedQueue × List Nat
  | [] => (q, [])
  | QOp.pushOp x :: ops => runOps (q.push x) ops
  | QOp.popOp :: ops =>
      let r := runOps q.pop ops
      (r.1, q.peek :: r.2)

/-- A script is valid when every `push` happens on a non-full queue and every
`pop` on a non-empty queue (the preconditions stated in the source). -/
def validOps (q : FixedQueue) : List QOp → Bool
  | [] => true
  | QOp.pushOp x :: ops => !q.fullQ && validOps (q.push x) ops
  | QOp.popOp :: ops => !q.emptyQ && validOps q.pop ops

/-- The values pushed by a script, in order. -/
def pushedValues : List QOp → List Nat
  | [] => []
  | QOp.pushOp x :: ops => x :: pushedValues ops
  | QOp.popOp :: ops => pushedValues ops

def countPush (ops : List QOp) : Nat := (pushedValues ops).length

def countPop : List QOp → Nat
  | [] => 0
  | QOp.pushOp _ :: ops => countPop ops
  | QOp.popOp :: ops => countPop ops + 1

/-! ## FreeRunCounter — `src/device/free_run_counter/free_run_counter.cpp`

All arithmetic in the source is on `uint32_t`; we model values as `Nat`
and wrap with `% U32` wherever the C computation can exceed 32 bits. -/

/-- `2^32`, the modulus of `uint32_t` arithmetic. -/
def U32 : Nat := 4294967296

/-- `UINT32_MAX`. -/
def UINT32_MAX : Nat := 4294967295

namespace FreeRunCounter

/-- `FreeRunCounter::diff_count(start_count, end_count)`.
The counting-direction policy (`USE_FRC_COUNT_UP_TYPE_`) is a compile-time
switch in the source; it is the `count_up` argument here.  For arguments
below `2^32`, `(a + U32 - b) % U32` is exactly the `uint32_t` subtraction
`a - b` of the source. -/
def diff_count (count_up : Bool) (start_count end_count : Nat) : Nat :=
  if count_up then (end_count + U32 - start_count) % U32
  else (start_count + U32 - end_count) % U32

/-- Constructor constant: `(freq + (976562 - 1)) / 976562` on `uint32_t`. -/
def kCOUNTS_PER_1024NSEC (freq : Nat) : Nat :=
  ((freq + (976562 - 1)) % U32) / 976562

/-- Constructor constant: `(freq + (1000000 - 1)) / 1000000` on `uint32_t`. -/
def kCOUNTS_PER_USEC (freq : Nat) : Nat :=
  ((freq + (1000000 - 1)) % U32) / 1000000

/-- Constructor constant: `(freq + (1000 - 1)) / 1000` on `uint32_t`. -/
def kCOUNTS_PER_MSEC (freq : Nat) : Nat :=
  ((freq + (1000 - 1)) % U32) / 1000

/-- Constructor constant: `freq / 976562`. -/
def kMEASUREMENT_UNIT_1024NSEC (freq : Nat) : Nat :=
  freq / 976562

/-- Constructor constant: `freq / 1000000`. -/
def kMEASUREMENT_UNIT_USEC (freq : Nat) : Nat :=
  freq / 1000000

/-- Constructor constant: `freq / 1000`. -/
def kMEASUREMENT_UNIT_MSEC (freq : Nat) : Nat :=
  freq / 1000

/-- `convertNsecToCount(nsec)`.  The `ASSERT_` guard is modelled as the
`Option`: `none` means the assertion fires instead of computing. -/
def convertNsecToCount (freq nsec : Nat) : Option Nat :=
  if nsec < (UINT32_MAX - (1024 - 1)) / kCOUNTS_PER_1024NSEC freq then
    some (((kCOUNTS_PER_1024NSEC freq * nsec + (1024 - 1)) % U32) >>> 10)
  else none

/-- `convertUsecToCount(usec)` with its `ASSERT_` guard. -/
def convertUsecToCount (freq usec : Nat) : Option Nat :=
  if usec < UINT32_MAX / kCOUNTS_PER_USEC freq then
    some ((kCOUNTS_PER_USEC freq * usec) % U32)
  else none

/-- `convertMsecToCount(msec)` with its `ASSERT_` guard. -/
def convertMsecToCount (freq msec : Nat) : Option Nat :=
  if msec < UINT32_MAX / kCOUNTS_PER_MSEC freq then
    some ((kCOUNTS_PER_MSEC freq * msec) % U32)
  else none

/-- `timeout(base_count, timeout_count)`; `now_count` is the value the
embedded `timer_.readCounter()` call returns. -/
def timeout (count_up : Bool) (base_count now_count timeout_count : Nat) : Bool :=
  if diff_count count_up base_count now_count < timeout_count then false else true

/-- `measureDurationNsec(start_count, end_count)` (unsigned arithmetic,
division by zero is undefined behaviour in the source; Lean's `/ 0 = 0`
stands in for it here). -/
def measureDurationNsec (count_up : Bool) (freq start_count end_count : Nat) : Nat :=
  let diffCount := diff_count count_up start_count end_count
  if diffCount &&& 0xFFC00000 ≠ 0 then
    (((diffCount + (kMEASUREMENT_UNIT_1024NSEC freq - 1)) % U32
        / kMEASUREMENT_UNIT_1024NSEC freq) <<< 10) % U32
  else
    (((diffCount <<< 10) % U32 + (kMEASUREMENT_UNIT_1024NSEC freq - 1)) % U32)
      / kMEASUREMENT_UNIT_1024NSEC freq

/-- `measureDurationUsec(start_count, end_count)`. -/
def measureDurationUsec (count_up : Bool) (freq start_count end_count : Nat) : Nat :=
  ((diff_count count_up start_count end_count + (kMEASUREMENT_UNIT_USEC freq - 1)) % U32)
    / kMEASUREMENT_UNIT_USEC freq

/-- `measureDurationMsec(start_count, end_count)`. -/
def measureDurationMsec (count_up : Bool) (freq start_count end_count : Nat) : Nat :=
  ((diff_count count_up start_count end_count + (kMEASUREMENT_UNIT_MSEC freq - 1)) % U32)
    / kMEASUREMENT_UNIT_MSEC freq

end FreeRunCounter

/-! ## Platform register masks

These constants come from the platform headers (`altera_avalon_uart_regs.h`,
`xuartlite_l.h`), which the specification treats as external collaborators;
the values are the platforms' published register layouts. -/

def ALTERA_AVALON_UART_STATUS_PE_MSK : Nat := 0x0001
def ALTERA_AVALON_UART_STATUS_FE_MSK : Nat := 0x0002
def ALTERA_AVALON_UART_STATUS_ROE_MSK : Nat := 0x0008
def ALTERA_AVALON_UART_STATUS_TMT_MSK : Nat := 0x0020
def ALTERA_AVALON_UART_STATUS_TRDY_MSK : Nat := 0x0040
def ALTERA_AVALON_UART_STATUS_RRDY_MSK : Nat := 0x0080

def ALTERA_AVALON_UART_CONTROL_PE_MSK : Nat := 0x0001
def ALTERA_AVALON_UART_CONTROL_FE_MSK : Nat := 0x0002
def ALTERA_AVALON_UART_CONTROL_ROE_MSK : Nat := 0x0008
def ALTERA_AVALON_UART_CONTROL_TRDY_MSK : Nat := 0x0040
def ALTERA_AVALON_UART_CONTROL_RRDY_MSK : Nat := 0x0080

/-- `~ALTERA_AVALON_UART_CONTROL_TRDY_MSK` on `uint32_t` (`0xFFFFFFBF`). -/
def ALTERA_AVALON_UART_CONTROL_TRDY_CLR : Nat := 0xFFFFFFBF

def XUL_SR_RX_FIFO_VALID_DATA : Nat := 0x01
def XUL_SR_RX_FIFO_FULL : Nat := 0x02
def XUL_SR_TX_FIFO_EMPTY : Nat := 0x04
def XUL_SR_TX_FIFO_FULL : Nat := 0x08
def XUL_SR_OVERRUN_ERROR : Nat := 0x20
def XUL_SR_FRAMING_ERROR : Nat := 0x40
def XUL_SR_PARITY_ERROR : Nat := 0x80

def XUL_FIFO_SIZE : Nat := 16

/-! ## NiosUart — `src/unnamed/part_020` (`nios_uart.cpp`)

Foreground calls run inside `alt_ic_irq_disable`/`enable` critical
sections; within one the driver state changes atomically, which is what
the functions below compute.  Register reads appear as arguments
(`status`, `rxData`), register writes are recorded in the results. -/

structure NiosUart where
  txQueue : FixedQueue
  rxQueue : FixedQueue
  interruptFlags : Nat
  errorMask : Nat
  lastError : Nat

/-- The driver state right after the constructor's `setup` succeeded:
both queues cleared, `lastError_ = 0`, and `setupInterrupt()` has set
`interruptFlags_` = PE|FE|ROE|RRDY and `errorMask_` = PE|FE|ROE. -/
def mkNios (txCap rxCap : Nat) : NiosUart :=
  { txQueue := FixedQueue.mkQueue txCap
    rxQueue := FixedQueue.mkQueue rxCap
    interruptFlags :=
      ALTERA_AVALON_UART_CONTROL_PE_MSK ||| ALTERA_AVALON_UART_CONTROL_FE_MSK |||
      ALTERA_AVALON_UART_CONTROL_ROE_MSK ||| ALTERA_AVALON_UART_CONTROL_RRDY_MSK
    errorMask :=
      ALTERA_AVALON_UART_STATUS_PE_MSK ||| ALTERA_AVALON_UART_STATUS_FE_MSK |||
      ALTERA_AVALON_UART_STATUS_ROE_MSK
    lastError := 0 }

structure NiosPutResult where
  rc : Nat
  uart : NiosUart
  txdataWrites : List Nat
  controlWrites : List Nat

namespace NiosUart

/-- `NiosUart::put(data)`.  `status` is the value the single
`IORD_ALTERA_AVALON_UART_STATUS` read returns.  After the branch the source
unconditionally sets `interruptFlags_ |= TRDY` and writes the control
register. -/
def put (u : NiosUart) (status data : Nat) : NiosPutResult :=
  let (rc, tx, hw) :=
    if status &&& ALTERA_AVALON_UART_STATUS_TRDY_MSK ≠ 0 then
      if u.txQueue.emptyQ then (0, u.txQueue, [data])
      else (0, (u.txQueue.pop).push data, [u.txQueue.peek])
    else if ¬ u.txQueue.fullQ then (0, u.txQueue.push data, ([] : List Nat))
    else (1, u.txQueue, [])
  let flags := u.interruptFlags ||| ALTERA_AVALON_UART_CONTROL_TRDY_MSK
  { rc := rc
    uart := { u with txQueue := tx, interruptFlags := flags }
    txdataWrites := hw
    controlWrites := [flags] }

/-- `NiosUart::get(data)`. -/
def get (u : NiosUart) : Nat × Option Nat × NiosUart :=
  if ¬ u.rxQueue.emptyQ then
    (0, some u.rxQueue.peek, { u with rxQueue := u.rxQueue.pop })
  else (1, none, u)

/-- `NiosUart::read(data_buff, data_count)`. -/
def read (u : NiosUart) (data_count : Nat) : Nat × List Nat × NiosUart :=
  if data_count ≤ u.rxQueue.size then
    let r := FixedQueue.popN data_count u.rxQueue
    (0, r.1, { u with rxQueue := r.2 })
  else (1, [], u)

structure WriteResult where
  rc : Nat
  uart : NiosUart
  controlWrites : List Nat

/-- `NiosUart::write(data_buff, data_count)`.  The TRDY-enable control
write happens on success and failure alike, as in the source. -/
def write (u : NiosUart) (data_buff : List Nat) : WriteResult :=
  let (rc, tx) :=
    if data_buff.length ≤ u.txQueue.availableSize then (0, u.txQueue.pushAll data_buff)
    else (1, u.txQueue)
  let flags := u.interruptFlags ||| ALTERA_AVALON_UART_CONTROL_TRDY_MSK
  { rc := rc
    uart := { u with txQueue := tx, interruptFlags := flags }
    controlWrites := [flags] }

/-- `NiosUart::clear()`: empties both queues, clears the sticky errors. -/
def clearU (u : NiosUart) : NiosUart :=
  { u with txQueue := u.txQueue.clear, rxQueue := u.rxQueue.clear, lastError := 0 }

/-- `NiosUart::overrunErrorOccurred()`. -/
def overrunErrorOccurred (u : NiosUart) : Bool :=
  decide (u.lastError &&& ALTERA_AVALON_UART_STATUS_ROE_MSK ≠ 0)

/-- `NiosUart::framingErrorOccurred()`. -/
def framingErrorOccurred (u : NiosUart) : Bool :=
  decide (u.lastError &&& ALTERA_AVALON_UART_STATUS_FE_MSK ≠ 0)

/-- `NiosUart::parityErrorOccurred()`. -/
def parityErrorOccurred (u : NiosUart) : Bool :=
  decide (u.lastError &&& ALTERA_AVALON_UART_STATUS_PE_MSK ≠ 0)

end NiosUart

/-- Machine state for one invocation of the Nios interrupt service
routine: the driver state plus the registers it touches.  `statusReg` is
what the single status read returns, `rxData` what an RXDATA read returns;
writes and RXDATA reads are logged. -/
structure NiosMachine where
  uart : NiosUart
  statusReg : Nat
  rxData : Nat
  statusWrites : List Nat
  txdataWrites : List Nat
  controlWrites : List Nat
  rxReads : Nat

/-- `NiosUart::receiveInterrupt()`: one byte; on a full RX queue the byte
is still read from RXDATA (consumed) but thrown away and ROE is latched. -/
def niosReceiveInterrupt (m : NiosMachine) : NiosMachine :=
  if m.uart.rxQueue.fullQ then
    { m with
      uart := { m.uart with
        lastError := m.uart.lastError ||| ALTERA_AVALON_UART_STATUS_ROE_MSK }
      rxReads := m.rxReads + 1 }
  else
    { m with
      uart := { m.uart with rxQueue := m.uart.rxQueue.push m.rxData }
      rxReads := m.rxReads + 1 }

/-- `NiosUart::transmitInterrupt()`: empty TX queue disables the TRDY
interrupt source; otherwise the front byte goes to TXDATA and is popped. -/
def niosTransmitInterrupt (m : NiosMachine) : NiosMachine :=
  if m.uart.txQueue.emptyQ then
    let flags := m.uart.interruptFlags &&& ALTERA_AVALON_UART_CONTROL_TRDY_CLR
    { m with
      uart := { m.uart with interruptFlags := flags }
      controlWrites := m.controlWrites ++ [flags] }
  else
    { m with
      uart := { m.uart with txQueue := m.uart.txQueue.pop }
      txdataWrites := m.txdataWrites ++ [m.uart.txQueue.peek] }

/-- `NiosUart::interruptServiceRoutine(isr_context)`: one status read;
error bits are latched into `lastError_` and the status register is
rewritten to zero; then (still in the same invocation) the receive and
transmit steps run according to the status bits. -/
def niosInterruptServiceRoutine (m : NiosMachine) : NiosMachine :=
  let status := m.statusReg
  let m1 :=
    if status &&& m.uart.errorMask ≠ 0 then
      { m with
        uart := { m.uart with
          lastError := m.uart.lastError ||| (status &&& m.uart.errorMask) }
        statusWrites := m.statusWrites ++ [0] }
    else m
  let m2 :=
    if status &&& ALTERA_AVALON_UART_STATUS_RRDY_MSK ≠ 0 then niosReceiveInterrupt m1 else m1
  if status &&& ALTERA_AVALON_UART_STATUS_TRDY_MSK ≠ 0 then niosTransmitInterrupt m2 else m2

/-! ### Bounded waits and `flush` (Nios)

Time model for the busy-wait loops: one counter tick per status-register
poll.  `statusAt t` is the status register's value at tick `t`.  A wait
entered at tick `t` with bound `timeout_count` polls once per tick;
`timeout(base, timeout_count)` first fires once `timeout_count` ticks have
elapsed, at which point the source re-reads the status register once more
before reporting failure.  The pair returned is `(rc, tick after the wait)`. -/

/-- The poll loop shared by `NiosUart::waitStatusReady` and
`MbUart::waitTxFifoEmpty`: wait until `status & mask == mask`. -/
def waitBitSet (statusAt : Nat → Nat) (mask : Nat) : Nat → Nat → Nat × Nat
  | t, 0 =>
      if statusAt t &&& mask = mask then (0, t + 1)
      else if statusAt (t + 1) &&& mask = mask then (0, t + 2)
      else (1, t + 2)
  | t, fuel + 1 =>
      if statusAt t &&& mask = mask then (0, t + 1)
      else waitBitSet statusAt mask (t + 1) fuel

/-- The poll loop of `MbUart::waitTxFifoReady`: wait until
`status & mask == 0`. -/
def waitBitClear (statusAt : Nat → Nat) (mask : Nat) : Nat → Nat → Nat × Nat
  | t, 0 =>
      if statusAt t &&& mask = 0 then (0, t + 1)
      else if statusAt (t + 1) &&& mask = 0 then (0, t + 2)
      else (1, t + 2)
  | t, fuel + 1 =>
      if statusAt t &&& mask = 0 then (0, t + 1)
      else waitBitClear statusAt mask (t + 1) fuel

/-- `NiosUart::waitStatusReady(status)`: bounded by
`convertUsecToCount(framePeriodUsec_)` counts, passed here as
`timeout_count`. -/
def niosWaitStatusReady (statusAt : Nat → Nat) (mask timeout_count t : Nat) : Nat × Nat :=
  waitBitSet statusAt mask t timeout_count

structure NiosFlushResult where
  rc : Nat
  uart : NiosUart
  txdataWrites : List Nat
  controlWrites : List Nat
  tick : Nat

/-- Second stage of the `flush` tail: after the TRDY wait returned `w2`
for the TMT ("transmission complete") bit, either abort or clear the
TRDY interrupt-source bit and write the control register. -/
def niosFlushFinishTmt (u : NiosUart) (sent : List Nat) (w2 : Nat × Nat) : NiosFlushResult :=
  if w2.1 ≠ 0 then
    { rc := 1, uart := u, txdataWrites := sent, controlWrites := [], tick := w2.2 }
  else
    { rc := 0
      uart := { u with
        interruptFlags := u.interruptFlags &&& ALTERA_AVALON_UART_CONTROL_TRDY_CLR }
      txdataWrites := sent
      controlWrites := [u.interruptFlags &&& ALTERA_AVALON_UART_CONTROL_TRDY_CLR]
      tick := w2.2 }

/-- First stage of the `flush` tail: the TRDY wait returned `w1`; either
abort or go on to the TMT wait. -/
def niosFlushFinishTrdy (statusAt : Nat → Nat) (timeout_count : Nat)
    (u : NiosUart) (sent : List Nat) (w1 : Nat × Nat) : NiosFlushResult :=
  if w1.1 ≠ 0 then
    { rc := 1, uart := u, txdataWrites := sent, controlWrites := [], tick := w1.2 }
  else
    niosFlushFinishTmt u sent
      (niosWaitStatusReady statusAt ALTERA_AVALON_UART_STATUS_TMT_MSK timeout_count w1.2)

/-- The tail of `NiosUart::flush()` once the TX queue is empty: wait
TRDY, wait TMT, then clear the TRDY interrupt-source bit and write the
control register.  Any failed wait aborts with `rc = 1` (the
`goto TERMINATE`). -/
def niosFlushFinish (statusAt : Nat → Nat) (timeout_count : Nat)
    (u : NiosUart) (sent : List Nat) (t : Nat) : NiosFlushResult :=
  niosFlushFinishTrdy statusAt timeout_count u sent
    (niosWaitStatusReady statusAt ALTERA_AVALON_UART_STATUS_TRDY_MSK timeout_count t)

/-- The drain loop of `NiosUart::flush()`: while the TX queue is
non-empty, wait for TRDY (bounded), write the front byte to TXDATA, pop.
Each iteration pops one byte, so the loop runs at most `size` times;
`fuel` is initialised to exactly that bound by `niosFlush`. -/
def niosFlushAux (statusAt : Nat → Nat) (timeout_count : Nat) :
    Nat → NiosUart → List Nat → Nat → NiosFlushResult
  | 0, u, sent, t => niosFlushFinish statusAt timeout_count u sent t
  | fuel + 1, u, sent, t =>
      if u.txQueue.emptyQ then niosFlushFinish statusAt timeout_count u sent t
      else
        if (niosWaitStatusReady statusAt ALTERA_AVALON_UART_STATUS_TRDY_MSK
            timeout_count t).1 ≠ 0 then
          { rc := 1, uart := u, txdataWrites := sent, controlWrites := []
            tick := (niosWaitStatusReady statusAt ALTERA_AVALON_UART_STATUS_TRDY_MSK
              timeout_count t).2 }
        else
          niosFlushAux statusAt timeout_count fuel { u with txQueue := u.txQueue.pop }
            (sent ++ [u.txQueue.peek])
            (niosWaitStatusReady statusAt ALTERA_AVALON_UART_STATUS_TRDY_MSK
              timeout_count t).2

/-- `NiosUart::flush()`. -/
def niosFlush (statusAt : Nat → Nat) (timeout_count : Nat) (u : NiosUart)
    (t0 : Nat) : NiosFlushResult :=
  niosFlushAux statusAt timeout_count u.txQueue.size u [] t0

/-! ## MbUart — `src/device/uart/mb_uart/mb_uart.cpp`

The Xilinx UART Lite has hardware TX/RX FIFOs of depth `XUL_FIFO_SIZE`
whose state the driver re-reads inside its loops, so here the hardware is
part of the machine state: `rxFifo` the receive FIFO contents, `txFifoCount`
the occupancy of the transmit FIFO, `errBits` the latched error status
bits.  `sent` logs bytes written with `XUartLite_SendByte`, `intrEnabled`
tracks `XUartLite_EnableIntr`/`DisableIntr`. -/

structure MbUart where
  txQueue : FixedQueue
  rxQueue : FixedQueue
  errorMask : Nat
  lastError : Nat

/-- Driver state after construction: queues cleared, `lastError_ = 0`, and
`setupInterrupt()` has set `errorMask_` = PARITY|FRAMING|OVERRUN. -/
def mkMb (txCap rxCap : Nat) : MbUart :=
  { txQueue := FixedQueue.mkQueue txCap
    rxQueue := FixedQueue.mkQueue rxCap
    errorMask := XUL_SR_PARITY_ERROR ||| XUL_SR_FRAMING_ERROR ||| XUL_SR_OVERRUN_ERROR
    lastError := 0 }

structure MbPutResult where
  rc : Nat
  uart : MbUart
  txdataWrites : List Nat

namespace MbUart

/-- `MbUart::put(data)`.  `status` is the single
`XUartLite_GetStatusReg` read; "ready" is `(status & TX_FIFO_FULL) == 0`. -/
def put (u : MbUart) (status data : Nat) : MbPutResult :=
  if status &&& XUL_SR_TX_FIFO_FULL = 0 then
    if u.txQueue.emptyQ then { rc := 0, uart := u, txdataWrites := [data] }
    else
      { rc := 0
        uart := { u with txQueue := (u.txQueue.pop).push data }
        txdataWrites := [u.txQueue.peek] }
  else if ¬ u.txQueue.fullQ then
    { rc := 0, uart := { u with txQueue := u.txQueue.push data }, txdataWrites := [] }
  else { rc := 1, uart := u, txdataWrites := [] }

/-- `MbUart::read(data_buff, data_count)` (same body as the Nios variant). -/
def read (u : MbUart) (data_count : Nat) : Nat × List Nat × MbUart :=
  if data_count ≤ u.rxQueue.size then
    let r := FixedQueue.popN data_count u.rxQueue
    (0, r.1, { u with rxQueue := r.2 })
  else (1, [], u)

end MbUart

structure MbMachine where
  uart : MbUart
  rxFifo : List Nat
  txFifoCount : Nat
  errBits : Nat
  sent : List Nat
  intrEnabled : Bool

/-- `XUartLite_GetStatusReg`: the status register as a function of the
hardware FIFO state and the latched error bits. -/
def mbStatus (m : MbMachine) : Nat :=
  (if m.rxFifo = [] then 0 else XUL_SR_RX_FIFO_VALID_DATA) |||
  (if m.txFifoCount = 0 then XUL_SR_TX_FIFO_EMPTY else 0) |||
  (if XUL_FIFO_SIZE ≤ m.txFifoCount then XUL_SR_TX_FIFO_FULL else 0) |||
  m.errBits

/-- `XUartLite_RecvByte`: takes the front byte out of the hardware RX FIFO. -/
def mbRecvByte (m : MbMachine) : Nat × MbMachine :=
  match m.rxFifo with
  | [] => (0, m)
  | b :: rest => (b, { m with rxFifo := rest })

/-- The loop of `MbUart::receiveInterrupt()`: up to `XUL_FIFO_SIZE`
iterations, re-reading the status register each time; a full RX queue
latches OVERRUN and throws the received byte away. -/
def mbReceiveInterruptLoop : Nat → MbMachine → MbMachine
  | 0, m => m
  | fuel + 1, m =>
      if mbStatus m &&& XUL_SR_RX_FIFO_VALID_DATA = 0 then m
      else if m.uart.rxQueue.fullQ then
        let r := mbRecvByte m
        mbReceiveInterruptLoop fuel
          { r.2 with
            uart := { r.2.uart with
              lastError := r.2.uart.lastError ||| XUL_SR_OVERRUN_ERROR } }
      else
        let r := mbRecvByte m
        mbReceiveInterruptLoop fuel
          { r.2 with uart := { r.2.uart with rxQueue := r.2.uart.rxQueue.push r.1 } }

/-- `MbUart::receiveInterrupt()`. -/
def mbReceiveInterrupt (m : MbMachine) : MbMachine :=
  mbReceiveInterruptLoop XUL_FIFO_SIZE m

/-- The loop of `MbUart::writeToTxFifo()`: move queue bytes into the
hardware TX FIFO while it has room, at most `XUL_FIFO_SIZE` iterations.
The per-iteration update is `XUartLite_SendByte` (TX FIFO occupancy up
by one, the byte appended to the send log) followed by `pop()`. -/
def mbWriteToTxFifoLoop : Nat → MbMachine → MbMachine
  | 0, m => m
  | fuel + 1, m =>
      if mbStatus m &&& XUL_SR_TX_FIFO_FULL ≠ 0 then m
      else if m.uart.txQueue.emptyQ then m
      else
        mbWriteToTxFifoLoop fuel
          { m with
            txFifoCount := m.txFifoCount + 1
            sent := m.sent ++ [m.uart.txQueue.peek]
            uart := { m.uart with txQueue := m.uart.txQueue.pop } }

/-- `MbUart::writeToTxFifo()`. -/
def mbWriteToTxFifo (m : MbMachine) : MbMachine :=
  mbWriteToTxFifoLoop XUL_FIFO_SIZE m

/-- `MbUart::interruptHandler(context)`: on any latched error bit the
handler ORs it into `lastError_`, resets the hardware RX FIFO
(`XUL_CR_FIFO_RX_RESET`), re-enables the device interrupt and RETURNS —
the receive/transmit servicing below is skipped on that invocation. -/
def mbInterruptHandler (m : MbMachine) : MbMachine :=
  let status := mbStatus m
  if status &&& m.uart.errorMask ≠ 0 then
    { m with
      uart := { m.uart with
        lastError := m.uart.lastError ||| (status &&& m.uart.errorMask) }
      rxFifo := []
      intrEnabled := true }
  else
    let m1 := if status &&& XUL_SR_RX_FIFO_VALID_DATA ≠ 0 then mbReceiveInterrupt m else m
    if status &&& XUL_SR_TX_FIFO_FULL = 0 then mbWriteToTxFifo m1 else m1

/-- `MbUart::write(data_buff, data_count)`: the all-or-nothing enqueue,
followed unconditionally by `writeToTxFifo()`. -/
def mbWrite (m : MbMachine) (data_buff : List Nat) : Nat × MbMachine :=
  let (rc, m1) :=
    if data_buff.length ≤ m.uart.txQueue.availableSize then
      (0, { m with uart := { m.uart with txQueue := m.uart.txQueue.pushAll data_buff } })
    else (1, m)
  (rc, mbWriteToTxFifo m1)

structure MbFlushResult where
  rc : Nat
  uart : MbUart
  sent : List Nat
  ctrlWrites : List Nat
  tick : Nat

/-- The tail of `MbUart::flush()` once the TX queue is empty: wait for
TX-FIFO-empty (bounded by `XUL_FIFO_SIZE` frame periods), then busy-wait
one extra frame period (`waitUsec(framePeriodUsec_)`).  No
control-register write ever happens in `flush`: `ctrlWrites` stays empty
because the UART Lite has no per-source TX interrupt enable to clear. -/
def mbFlushFinish (statusAt : Nat → Nat) (frame_count : Nat)
    (u : MbUart) (sent : List Nat) (t : Nat) : MbFlushResult :=
  if (waitBitSet statusAt XUL_SR_TX_FIFO_EMPTY t (frame_count * XUL_FIFO_SIZE)).1 ≠ 0 then
    { rc := 1, uart := u, sent := sent, ctrlWrites := []
      tick := (waitBitSet statusAt XUL_SR_TX_FIFO_EMPTY t (frame_count * XUL_FIFO_SIZE)).2 }
  else
    { rc := 0, uart := u, sent := sent, ctrlWrites := []
      tick := (waitBitSet statusAt XUL_SR_TX_FIFO_EMPTY t (frame_count * XUL_FIFO_SIZE)).2
        + frame_count }

/-- The drain loop of `MbUart::flush()`; as in `niosFlushAux`, `fuel`
is the loop's own bound `size` (one pop per iteration). -/
def mbFlushAux (statusAt : Nat → Nat) (frame_count : Nat) :
    Nat → MbUart → List Nat → Nat → MbFlushResult
  | 0, u, sent, t => mbFlushFinish statusAt frame_count u sent t
  | fuel + 1, u, sent, t =>
      if u.txQueue.emptyQ then mbFlushFinish statusAt frame_count u sent t
      else
        if (waitBitClear statusAt XUL_SR_TX_FIFO_FULL t frame_count).1 ≠ 0 then
          { rc := 1, uart := u, sent := sent, ctrlWrites := []
            tick := (waitBitClear statusAt XUL_SR_TX_FIFO_FULL t frame_count).2 }
        else
          mbFlushAux statusAt frame_count fuel { u with txQueue := u.txQueue.pop }
            (sent ++ [u.txQueue.peek])
            (waitBitClear statusAt XUL_SR_TX_FIFO_FULL t frame_count).2

/-- `MbUart::flush()`. -/
def mbFlush (statusAt : Nat → Nat) (frame_count : Nat) (u : MbUart)
    (t0 : Nat) : MbFlushResult :=
  mbFlushAux statusAt frame_count u.txQueue.size u [] t0


/-! ## Theorems

### FixedQueue lemmas -/

namespace FixedQueue

theorem length_toList (q : FixedQueue) : q.toList.length = q.size := by
  simp [toList]

theorem toList_mkQueue (c : Nat) : (mkQueue c).toList = [] := by
  simp [toList, mkQueue]

theorem inv_mkQueue (c : Nat) (hc : 0 < c) : (mkQueue c).Inv := by
  refine ⟨hc, Nat.zero_le _, ?_⟩
  simp [mkQueue, Nat.zero_mod]

theorem inv_clear (q : FixedQueue) (h : 0 < q.sizeMax) : q.clear.Inv := by
  refine ⟨h, Nat.zero_le _, ?_⟩
  simp [clear, Nat.zero_mod]

theorem toList_clear (q : FixedQueue) : q.clear.toList = [] := by
  simp [toList, clear]

/-- The "increment, then reset to zero if equal to capacity" pattern agrees
with addition modulo the capacity. -/
theorem wrapStep_eq_mod (a m : Nat) (ha : a < m) :
    (if a + 1 = m then 0 else a + 1) = (a + 1) % m := by
  by_cases h : a + 1 = m
  · simp [h, Nat.mod_self]
  · have h1 : a + 1 < m := lt_of_le_of_ne (Nat.succ_le_of_lt ha) h
    simp [h, Nat.mod_eq_of_lt h1]

theorem inv_push (q : FixedQueue) (x : Nat) (hq : q.Inv) (hs : q.size < q.sizeMax) :
    (q.push x).Inv := by
  obtain ⟨hh, _, ht⟩ := hq
  have hm : 0 < q.sizeMax := Nat.lt_of_le_of_lt (Nat.zero_le _) hh
  have htl : q.tail < q.sizeMax := ht ▸ Nat.mod_lt _ hm
  refine ⟨hh, hs, ?_⟩
  show (if q.tail + 1 = q.sizeMax then 0 else q.tail + 1) = (q.head + (q.size + 1)) % q.sizeMax
  rw [wrapStep_eq_mod q.tail q.sizeMax htl, ht]
  have : q.head + (q.size + 1) = q.head + q.size + 1 := by ring
  rw [this]
  exact (Nat.mod_modEq (q.head + q.size) q.sizeMax).add_right 1

theorem inv_pop (q : FixedQueue) (hq : q.Inv) (hs : 0 < q.size) : q.pop.Inv := by
  obtain ⟨hh, hsm, ht⟩ := hq
  have hm : 0 < q.sizeMax := Nat.lt_of_le_of_lt (Nat.zero_le _) hh
  refine ⟨?_, ?_, ?_⟩
  · show (if q.head + 1 = q.sizeMax then 0 else q.head + 1) < q.sizeMax
    rw [wrapStep_eq_mod q.head q.sizeMax hh]
    exact Nat.mod_lt _ hm
  · exact Nat.le_trans (Nat.sub_le _ _) hsm
  · show q.tail = ((if q.head + 1 = q.sizeMax then 0 else q.head + 1) + (q.size - 1)) % q.sizeMax
    rw [wrapStep_eq_mod q.head q.sizeMax hh, ht]
    have hadd : q.head + 1 + (q.size - 1) = q.head + q.size := by omega
    calc (q.head + q.size) % q.sizeMax
        = (q.head + 1 + (q.size - 1)) % q.sizeMax := by rw [hadd]
      _ = ((q.head + 1) % q.sizeMax + (q.size - 1)) % q.sizeMax :=
          ((Nat.mod_modEq (q.head + 1) q.sizeMax).add_right (q.size - 1)).symm

/-- `toList` decomposes at the front: the head cell is `peek` and popping
drops it. -/
theorem toList_cons (q : FixedQueue) (hq : q.Inv) (hs : 0 < q.size) :
    q.toList = q.peek :: q.pop.toList := by
  obtain ⟨hh, hsm, _⟩ := hq
  obtain ⟨k, hk⟩ : ∃ k, q.size = k + 1 := ⟨q.size - 1, by omega⟩
  unfold toList pop peek
  rw [hk]
  simp only [List.range_succ_eq_map, List.map_cons, List.map_map, Nat.add_sub_cancel]
  congr 1
  · rw [Nat.add_zero, Nat.mod_eq_of_lt hh]
  · show _ = (List.range k).map fun i =>
      q.elements (((if q.head + 1 = q.sizeMax then 0 else q.head + 1) + i) % q.sizeMax)
    apply List.map_congr_left
    intro i _
    have h1 : (q.head + Nat.succ i) % q.sizeMax
        = ((if q.head + 1 = q.sizeMax then 0 else q.head + 1) + i) % q.sizeMax := by
      rw [wrapStep_eq_mod q.head q.sizeMax hh]
      have : q.head + Nat.succ i = q.head + 1 + i := by omega
      rw [this]
      exact ((Nat.mod_modEq (q.head + 1) q.sizeMax).add_right i).symm
    simp [Function.comp, h1]

/-- `push` appends at the back of the abstraction. -/
theorem toList_push (q : FixedQueue) (x : Nat) (hq : q.Inv) (hs : q.size < q.sizeMax) :
    (q.push x).toList = q.toList ++ [x] := by
  obtain ⟨hh, hsm, ht⟩ := hq
  have hm : 0 < q.sizeMax := Nat.lt_of_le_of_lt (Nat.zero_le _) hh
  unfold toList push
  simp only [List.range_succ, List.map_append, List.map_cons, List.map_nil]
  congr 1
  · apply List.map_congr_left
    intro i hi
    rw [List.mem_range] at hi
    have hne : (q.head + i) % q.sizeMax ≠ q.tail := by
      rw [ht]
      intro hcontra
      have h2 : i % q.sizeMax = q.size % q.sizeMax :=
        Nat.ModEq.add_left_cancel' q.head hcontra
      rw [Nat.mod_eq_of_lt (Nat.lt_trans hi hs), Nat.mod_eq_of_lt hs] at h2
      omega
    simp [hne]
  · have : (q.head + q.size) % q.sizeMax = q.tail := ht.symm
    simp [this]

end FixedQueue

open FixedQueue

/-- Simulation of the circular-buffer implementation by the list model:
running a valid script pops exactly the first `countPop` elements of
(initial contents ++ pushed values) and leaves the rest. -/
theorem runOps_spec (ops : List QOp) (q : FixedQueue) (hq : q.Inv)
    (hv : validOps q ops = true) :
    (runOps q ops).1.Inv ∧
    (runOps q ops).1.toList = (q.toList ++ pushedValues ops).drop (countPop ops) ∧
    (runOps q ops).2 = (q.toList ++ pushedValues ops).take (countPop ops) := by
  induction ops generalizing q with
  | nil => simpa [runOps, pushedValues, countPop] using hq
  | cons op ops ih =>
    cases op with
    | pushOp x =>
      rw [validOps, Bool.and_eq_true, Bool.not_eq_true'] at hv
      obtain ⟨hnf, hv⟩ := hv
      have hs : q.size < q.sizeMax := by
        simp only [fullQ, decide_eq_false_iff_not, Nat.not_le] at hnf
        exact hnf
      obtain ⟨h1, h2, h3⟩ := ih (q.push x) (inv_push q x hq hs) hv
      refine ⟨h1, ?_, ?_⟩
      · rw [runOps]
        rw [h2, toList_push q x hq hs, pushedValues, countPop, List.append_assoc,
          List.singleton_append]
      · rw [runOps]
        rw [h3, toList_push q x hq hs, pushedValues, countPop, List.append_assoc,
          List.singleton_append]
    | popOp =>
      rw [validOps, Bool.and_eq_true, Bool.not_eq_true'] at hv
      obtain ⟨hne, hv⟩ := hv
      have hs : 0 < q.size := by
        simp only [emptyQ, decide_eq_false_iff_not] at hne
        omega
      obtain ⟨h1, h2, h3⟩ := ih q.pop (inv_pop q hq hs) hv
      have hcons : q.toList = q.peek :: q.pop.toList := toList_cons q hq hs
      refine ⟨h1, ?_, ?_⟩
      · rw [runOps]
        rw [h2, hcons, countPop, pushedValues, List.cons_append, List.drop_succ_cons]
      · rw [runOps]
        rw [h3, hcons, countPop, pushedValues, List.cons_append, List.take_succ_cons]


/-! ### C7 — the FIFO law of the fixed queue -/

/-- C7: for every fixed queue of capacity ≥ 1 and every `push`/`pop` script
in which `push` is only called when not full and `pop` only when not empty,
the final `size()` equals pushes minus pops, the values observed by
`peek`/`front` immediately before each `pop` are exactly the pushed values
in push order (FIFO law), and the head/tail cursors keep wrapping modulo
the capacity (the representation invariant holds throughout, in particular
at the end). -/
theorem C7_fixedQueue_fifo_law (c : Nat) (ops : List QOp) (hc : 0 < c)
    (hv : validOps (FixedQueue.mkQueue c) ops = true) :
    (runOps (FixedQueue.mkQueue c) ops).1.size = countPush ops - countPop ops ∧
    (runOps (FixedQueue.mkQueue c) ops).2 = (pushedValues ops).take (countPop ops) ∧
    (runOps (FixedQueue.mkQueue c) ops).1.Inv := by
  obtain ⟨h1, h2, h3⟩ := runOps_spec ops (FixedQueue.mkQueue c) (inv_mkQueue c hc) hv
  rw [toList_mkQueue, List.nil_append] at h2 h3
  refine ⟨?_, h3, h1⟩
  have hlen := length_toList (runOps (FixedQueue.mkQueue c) ops).1
  rw [h2, List.length_drop] at hlen
  rw [← hlen, countPush]

/-- Concrete instance of C7 (the spec's capacity-4 example: push the four
bytes A,B,C,D, pop once, then push E). -/
theorem C7_fixedQueue_fifo_law_witness :
    (0 < 4 ∧ validOps (FixedQueue.mkQueue 4)
      [QOp.pushOp 65, QOp.pushOp 66, QOp.pushOp 67, QOp.pushOp 68,
       QOp.popOp, QOp.pushOp 69] = true) ∧
    ((runOps (FixedQueue.mkQueue 4)
      [QOp.pushOp 65, QOp.pushOp 66, QOp.pushOp 67, QOp.pushOp 68,
       QOp.popOp, QOp.pushOp 69]).1.size
        = countPush [QOp.pushOp 65, QOp.pushOp 66, QOp.pushOp 67, QOp.pushOp 68,
            QOp.popOp, QOp.pushOp 69]
          - countPop [QOp.pushOp 65, QOp.pushOp 66, QOp.pushOp 67, QOp.pushOp 68,
            QOp.popOp, QOp.pushOp 69] ∧
     (runOps (FixedQueue.mkQueue 4)
      [QOp.pushOp 65, QOp.pushOp 66, QOp.pushOp 67, QOp.pushOp 68,
       QOp.popOp, QOp.pushOp 69]).2
        = (pushedValues [QOp.pushOp 65, QOp.pushOp 66, QOp.pushOp 67, QOp.pushOp 68,
            QOp.popOp, QOp.pushOp 69]).take
            (countPop [QOp.pushOp 65, QOp.pushOp 66, QOp.pushOp 67, QOp.pushOp 68,
              QOp.popOp, QOp.pushOp 69]) ∧
     (runOps (FixedQueue.mkQueue 4)
      [QOp.pushOp 65, QOp.pushOp 66, QOp.pushOp 67, QOp.pushOp 68,
       QOp.popOp, QOp.pushOp 69]).1.Inv) :=
  ⟨⟨by decide, by decide⟩,
    C7_fixedQueue_fifo_law 4 _ (by decide) (by decide)⟩

/-! ### C5 / C6 — wraparound-correct difference and timeout -/

/-- For an up-counter, the raw value after `e` true elapsed counts from
`s` is `(s + e) % 2^32`; `diff_count` recovers `e` whenever `e < 2^32`. -/
theorem diff_up_elapsed (s e : Nat) (hs : s < U32) (he : e < U32) :
    FreeRunCounter.diff_count true s ((s + e) % U32) = e := by
  simp only [FreeRunCounter.diff_count, if_pos, U32] at *
  omega

/-- For a down-counter, the raw value after `e` true elapsed counts from
`s` is `(s + 2^32 - e) % 2^32`; `diff_count` recovers `e` whenever
`e < 2^32`. -/
theorem diff_down_elapsed (s e : Nat) (hs : s < U32) (he : e < U32) :
    FreeRunCounter.diff_count false s ((s + U32 - e) % U32) = e := by
  simp only [FreeRunCounter.diff_count, Bool.false_eq_true, if_false, U32] at *
  omega

/-- C5: for every pair of 32-bit samples whose true elapsed count `e` is
below `2^32`, `diff_count` returns exactly `e`, whether or not the raw
counter wrapped during the interval: the up-counting policy computes
`end - start` and the down-counting policy `start - end`, both modulo
`2^32`. -/
theorem C5_diff_count_wrap_insensitive (s e : Nat) (hs : s < U32) (he : e < U32) :
    FreeRunCounter.diff_count true s ((s + e) % U32) = e ∧
    FreeRunCounter.diff_count false s ((s + U32 - e) % U32) = e :=
  ⟨diff_up_elapsed s e hs he, diff_down_elapsed s e hs he⟩

/-- Concrete instance of C5 straddling the wrap point: start five counts
before the rollover, elapse 100 counts. -/
theorem C5_diff_count_wrap_insensitive_witness :
    (4294967291 < U32 ∧ 100 < U32) ∧
    (FreeRunCounter.diff_count true 4294967291 ((4294967291 + 100) % U32) = 100 ∧
     FreeRunCounter.diff_count false 4294967291 ((4294967291 + U32 - 100) % U32) = 100) :=
  ⟨⟨by decide, by decide⟩,
    C5_diff_count_wrap_insensitive 4294967291 100 (by decide) (by decide)⟩

/-- C6: `timeout(base, t)` is true iff `diff_count(base, now) ≥ t`; hence
it is false at `now = base` whenever `t > 0`, and (for either counting
policy) it is true as soon as the true elapsed count reaches `t`
(elapsed below `2^32`). -/
theorem C6_timeout_iff_diff_ge (cu : Bool) (base now_count t : Nat) :
    (FreeRunCounter.timeout cu base now_count t = true ↔
      t ≤ FreeRunCounter.diff_count cu base now_count) ∧
    (0 < t → FreeRunCounter.timeout cu base base t = false) ∧
    (∀ e, t ≤ e → e < U32 → base < U32 →
      FreeRunCounter.timeout true base ((base + e) % U32) t = true ∧
      FreeRunCounter.timeout false base ((base + U32 - e) % U32) t = true) := by
  refine ⟨?_, ?_, ?_⟩
  · unfold FreeRunCounter.timeout
    split
    · simp; omega
    · simp; omega
  · intro ht
    have hdiff : FreeRunCounter.diff_count cu base base = 0 := by
      unfold FreeRunCounter.diff_count
      cases cu <;> simp <;> omega
    unfold FreeRunCounter.timeout
    rw [hdiff]
    simp [ht]
  · intro e hte heU hbU
    constructor
    · unfold FreeRunCounter.timeout
      rw [diff_up_elapsed base e hbU heU]
      simp
      omega
    · unfold FreeRunCounter.timeout
      rw [diff_down_elapsed base e hbU heU]
      simp
      omega

/-- Concrete instance of C6: an up-counter five counts before rollover,
timeout bound 7; after 10 elapsed counts (wrapping) the timeout fires,
and at the base itself it does not. -/
theorem C6_timeout_iff_diff_ge_witness :
    FreeRunCounter.timeout true 4294967291 ((4294967291 + 10) % U32) 7 = true ∧
    FreeRunCounter.timeout true 4294967291 4294967291 7 = false :=
  ⟨((C6_timeout_iff_diff_ge true 4294967291 0 7).2.2 10 (by decide) (by decide)
      (by decide)).1,
    (C6_timeout_iff_diff_ge true 4294967291 4294967291 7).2.1 (by decide)⟩

/-! ### C10 — the measurement divisors -/

/-- C10: `measureDurationUsec`/`measureDurationMsec`/`measureDurationNsec`
divide the count difference by `kMEASUREMENT_UNIT_USEC = freq / 1000000`,
`kMEASUREMENT_UNIT_MSEC = freq / 1000` and
`kMEASUREMENT_UNIT_1024NSEC = freq / 976562` respectively (for the Nsec
variant in both of its branches), and each divisor is nonzero exactly
when the frequency is at least the unit (1 MHz, 1 kHz, 976562 Hz); below
that the divisor is `0` and every call to the corresponding public
`measureDurationX` divides by zero (undefined behaviour in the C source,
`/ 0` in this model). -/
theorem C10_measurement_unit_divisors (freq : Nat) :
    (FreeRunCounter.kMEASUREMENT_UNIT_USEC freq ≠ 0 ↔ 1000000 ≤ freq) ∧
    (FreeRunCounter.kMEASUREMENT_UNIT_MSEC freq ≠ 0 ↔ 1000 ≤ freq) ∧
    (FreeRunCounter.kMEASUREMENT_UNIT_1024NSEC freq ≠ 0 ↔ 976562 ≤ freq) ∧
    (∀ cu s e, FreeRunCounter.measureDurationUsec cu freq s e
          = ((FreeRunCounter.diff_count cu s e
              + (FreeRunCounter.kMEASUREMENT_UNIT_USEC freq - 1)) % U32)
            / FreeRunCounter.kMEASUREMENT_UNIT_USEC freq) ∧
    (∀ cu s e, FreeRunCounter.measureDurationMsec cu freq s e
          = ((FreeRunCounter.diff_count cu s e
              + (FreeRunCounter.kMEASUREMENT_UNIT_MSEC freq - 1)) % U32)
            / FreeRunCounter.kMEASUREMENT_UNIT_MSEC freq) ∧
    (∀ cu s e, FreeRunCounter.measureDurationNsec cu freq s e
          = if FreeRunCounter.diff_count cu s e &&& 0xFFC00000 ≠ 0 then
              (((FreeRunCounter.diff_count cu s e
                  + (FreeRunCounter.kMEASUREMENT_UNIT_1024NSEC freq - 1)) % U32
                / FreeRunCounter.kMEASUREMENT_UNIT_1024NSEC freq) <<< 10) % U32
            else
              (((FreeRunCounter.diff_count cu s e <<< 10) % U32
                  + (FreeRunCounter.kMEASUREMENT_UNIT_1024NSEC freq - 1)) % U32)
                / FreeRunCounter.kMEASUREMENT_UNIT_1024NSEC freq) := by
  refine ⟨?_, ?_, ?_, fun _ _ _ => rfl, fun _ _ _ => rfl, fun _ _ _ => rfl⟩
  · unfold FreeRunCounter.kMEASUREMENT_UNIT_USEC; omega
  · unfold FreeRunCounter.kMEASUREMENT_UNIT_MSEC; omega
  · unfold FreeRunCounter.kMEASUREMENT_UNIT_1024NSEC; omega

/-! ### C9 — duration-to-count conversions round up -/

/-- C9: under the `ASSERT_` precondition (modelled by the conversion
returning `some`), each `convertXToCount` computes its product without
32-bit wrap (the result equals the exact `Nat` expression), and the
returned count is at least the exact count of the requested duration at
the timer frequency: `1000000 * count ≥ freq * usec`,
`1000 * count ≥ freq * msec`, `1000000000 * count ≥ freq * nsec`
(rounding up, never down).  Inputs that violate the precondition are
rejected (`none`, the assertion) instead of silently wrapping.
The frequency hypotheses say the timer frequency is positive and small
enough that the constructor's ceiling constants themselves do not wrap. -/
theorem C9_convert_to_count_rounds_up (freq : Nat) (h1 : 0 < freq)
    (h2 : freq + 999999 < U32) :
    (∀ usec c, FreeRunCounter.convertUsecToCount freq usec = some c →
        c = FreeRunCounter.kCOUNTS_PER_USEC freq * usec ∧
        freq * usec ≤ 1000000 * c) ∧
    (∀ msec c, FreeRunCounter.convertMsecToCount freq msec = some c →
        c = FreeRunCounter.kCOUNTS_PER_MSEC freq * msec ∧
        freq * msec ≤ 1000 * c) ∧
    (∀ nsec c, FreeRunCounter.convertNsecToCount freq nsec = some c →
        c = (FreeRunCounter.kCOUNTS_PER_1024NSEC freq * nsec + 1023) / 1024 ∧
        freq * nsec ≤ 1000000000 * c) ∧
    (∀ usec, FreeRunCounter.convertUsecToCount freq usec = none ↔
        UINT32_MAX / FreeRunCounter.kCOUNTS_PER_USEC freq ≤ usec) := by
  have hU : U32 = 4294967296 := rfl
  have hM : UINT32_MAX = 4294967295 := rfl
  have kusec : FreeRunCounter.kCOUNTS_PER_USEC freq = (freq + 999999) / 1000000 := by
    unfold FreeRunCounter.kCOUNTS_PER_USEC
    rw [Nat.mod_eq_of_lt (by omega)]
  have kmsec : FreeRunCounter.kCOUNTS_PER_MSEC freq = (freq + 999) / 1000 := by
    unfold FreeRunCounter.kCOUNTS_PER_MSEC
    rw [Nat.mod_eq_of_lt (by omega)]
  have knsec : FreeRunCounter.kCOUNTS_PER_1024NSEC freq = (freq + 976561) / 976562 := by
    unfold FreeRunCounter.kCOUNTS_PER_1024NSEC
    rw [Nat.mod_eq_of_lt (by omega)]
  refine ⟨?_, ?_, ?_, ?_⟩
  · intro usec c hc
    unfold FreeRunCounter.convertUsecToCount at hc
    split at hc
    case isFalse => exact absurd hc (by simp)
    case isTrue hguard =>
      injection hc with hc
      set k := FreeRunCounter.kCOUNTS_PER_USEC freq
      have hkpos : 1 ≤ k := by rw [kusec]; omega
      have hsmall : k * usec + k ≤ UINT32_MAX := by
        have step1 : k * (usec + 1) ≤ k * (UINT32_MAX / k) :=
          Nat.mul_le_mul_left k hguard
        have step2 : UINT32_MAX / k * k ≤ UINT32_MAX := Nat.div_mul_le_self _ _
        calc k * usec + k = k * (usec + 1) := by ring
          _ ≤ k * (UINT32_MAX / k) := step1
          _ = UINT32_MAX / k * k := by ring
          _ ≤ UINT32_MAX := step2
      have hnowrap : k * usec % U32 = k * usec :=
        Nat.mod_eq_of_lt (by omega)
      have hc2 : c = k * usec := by rw [← hc, hnowrap]
      refine ⟨hc2, ?_⟩
      have hfk : freq ≤ 1000000 * k := by rw [kusec]; omega
      calc freq * usec ≤ 1000000 * k * usec := Nat.mul_le_mul_right usec hfk
        _ = 1000000 * (k * usec) := by ring
        _ = 1000000 * c := by rw [hc2]
  · intro msec c hc
    unfold FreeRunCounter.convertMsecToCount at hc
    split at hc
    case isFalse => exact absurd hc (by simp)
    case isTrue hguard =>
      injection hc with hc
      set k := FreeRunCounter.kCOUNTS_PER_MSEC freq
      have hkpos : 1 ≤ k := by rw [kmsec]; omega
      have hsmall : k * msec + k ≤ UINT32_MAX := by
        have step1 : k * (msec + 1) ≤ k * (UINT32_MAX / k) :=
          Nat.mul_le_mul_left k hguard
        have step2 : UINT32_MAX / k * k ≤ UINT32_MAX := Nat.div_mul_le_self _ _
        calc k * msec + k = k * (msec + 1) := by ring
          _ ≤ k * (UINT32_MAX / k) := step1
          _ = UINT32_MAX / k * k := by ring
          _ ≤ UINT32_MAX := step2
      have hnowrap : k * msec % U32 = k * msec :=
        Nat.mod_eq_of_lt (by omega)
      have hc2 : c = k * msec := by rw [← hc, hnowrap]
      refine ⟨hc2, ?_⟩
      have hfk : freq ≤ 1000 * k := by rw [kmsec]; omega
      calc freq * msec ≤ 1000 * k * msec := Nat.mul_le_mul_right msec hfk
        _ = 1000 * (k * msec) := by ring
        _ = 1000 * c := by rw [hc2]
  · intro nsec c hc
    unfold FreeRunCounter.convertNsecToCount at hc
    split at hc
    case isFalse => exact absurd hc (by simp)
    case isTrue hguard =>
      injection hc with hc
      set k := FreeRunCounter.kCOUNTS_PER_1024NSEC freq
      have hkpos : 1 ≤ k := by rw [knsec]; omega
      have hsmall : k * nsec + k ≤ UINT32_MAX - 1023 := by
        have step1 : k * (nsec + 1) ≤ k * ((UINT32_MAX - 1023) / k) :=
          Nat.mul_le_mul_left k hguard
        have step2 : (UINT32_MAX - 1023) / k * k ≤ UINT32_MAX - 1023 :=
          Nat.div_mul_le_self _ _
        calc k * nsec + k = k * (nsec + 1) := by ring
          _ ≤ k * ((UINT32_MAX - 1023) / k) := step1
          _ = (UINT32_MAX - 1023) / k * k := by ring
          _ ≤ UINT32_MAX - 1023 := step2
      have hnowrap : (k * nsec + 1023) % U32 = k * nsec + 1023 :=
        Nat.mod_eq_of_lt (by omega)
      have hc2 : c = (k * nsec + 1023) / 1024 := by
        rw [← hc, hnowrap, Nat.shiftRight_eq_div_pow]
      refine ⟨hc2, ?_⟩
      have hfk : freq ≤ 976562 * k := by rw [knsec]; omega
      have h1024 : k * nsec ≤ 1024 * c := by rw [hc2]; omega
      calc freq * nsec ≤ 976562 * k * nsec := Nat.mul_le_mul_right nsec hfk
        _ = 976562 * (k * nsec) := by ring
        _ ≤ 976562 * (1024 * c) := Nat.mul_le_mul_left 976562 h1024
        _ = 999999488 * c := by ring
        _ ≤ 1000000000 * c := Nat.mul_le_mul_right c (by norm_num)
  · intro usec
    unfold FreeRunCounter.convertUsecToCount
    split
    case isTrue hguard => simp; omega
    case isFalse hguard => simp; omega

/-- Concrete instance of C9 at a 50 MHz timer: 7 µs becomes 350 counts
(≥ the exact 350), 3 ms becomes 150000 counts, and 1000 ns becomes a
count covering at least 50 µs-worth of cycles. -/
theorem C9_convert_to_count_rounds_up_witness :
    (0 < 50000000 ∧ 50000000 + 999999 < U32) ∧
    FreeRunCounter.convertUsecToCount 50000000 7 = some 350 ∧
    (∀ usec c, FreeRunCounter.convertUsecToCount 50000000 usec = some c →
        c = FreeRunCounter.kCOUNTS_PER_USEC 50000000 * usec ∧
        50000000 * usec ≤ 1000000 * c) :=
  ⟨⟨by decide, by decide⟩, by decide,
    (C9_convert_to_count_rounds_up 50000000 (by decide) (by decide)).1⟩

/-! ### Further queue lemmas (rotation, bulk transfer) -/

/-- The "rotate" step of `put` on a ready device with a non-empty queue:
`pop` then `push x` moves the queue one step and appends `x`; `peek` is
the front of the abstraction. -/
theorem rotate_toList (q : FixedQueue) (x : Nat) (hq : q.Inv) (hs : 0 < q.size) :
    ((q.pop).push x).toList = q.toList.tail ++ [x] ∧ q.peek = q.toList.headD 0 := by
  have hsm := hq.2.1
  have hc := toList_cons q hq hs
  have hpopInv := inv_pop q hq hs
  have hpops : q.pop.size < q.sizeMax := by
    simp only [FixedQueue.pop]
    have := hq.1
    omega
  constructor
  · rw [toList_push q.pop x hpopInv hpops, hc, List.tail_cons]
  · rw [hc]
    rfl

theorem popN_spec (n : Nat) (q : FixedQueue) (hq : q.Inv) (hn : n ≤ q.size) :
    (FixedQueue.popN n q).1 = q.toList.take n ∧
    (FixedQueue.popN n q).2.toList = q.toList.drop n ∧
    (FixedQueue.popN n q).2.Inv ∧
    (FixedQueue.popN n q).2.size = q.size - n := by
  induction n generalizing q with
  | zero => simpa [FixedQueue.popN] using hq
  | succ n ih =>
    have hs : 0 < q.size := by omega
    have hc := toList_cons q hq hs
    have hpop : n ≤ q.pop.size := by
      simp only [FixedQueue.pop]
      omega
    obtain ⟨ih1, ih2, ih3, ih4⟩ := ih q.pop (inv_pop q hq hs) hpop
    refine ⟨?_, ?_, ih3, ?_⟩
    · show q.peek :: (FixedQueue.popN n q.pop).1 = _
      rw [ih1, hc, List.take_succ_cons]
    · show (FixedQueue.popN n q.pop).2.toList = _
      rw [ih2, hc, List.drop_succ_cons]
    · show (FixedQueue.popN n q.pop).2.size = _
      rw [ih4]
      simp only [FixedQueue.pop]
      omega

theorem pushAll_spec (l : List Nat) (q : FixedQueue) (hq : q.Inv)
    (hl : q.size + l.length ≤ q.sizeMax) :
    (q.pushAll l).toList = q.toList ++ l ∧
    (q.pushAll l).Inv ∧
    (q.pushAll l).size = q.size + l.length := by
  induction l generalizing q with
  | nil => simpa [FixedQueue.pushAll] using hq
  | cons x l ih =>
    have hs : q.size < q.sizeMax := by
      have := l.length
      simp only [List.length_cons] at hl
      omega
    have hinv := inv_push q x hq hs
    have hsz : (q.push x).size + l.length ≤ (q.push x).sizeMax := by
      simp only [FixedQueue.push, List.length_cons] at hl ⊢
      omega
    obtain ⟨ih1, ih2, ih3⟩ := ih (q.push x) hinv hsz
    have hfold : q.pushAll (x :: l) = (q.push x).pushAll l := rfl
    refine ⟨?_, hfold ▸ ih2, ?_⟩
    · rw [hfold, ih1, toList_push q x hq hs, List.append_assoc, List.singleton_append]
    · rw [hfold, ih3]
      simp only [FixedQueue.push, List.length_cons]
      omega

/-! ### Bitmask helper lemmas -/

theorem or_and_self_mask (a b : Nat) : (a ||| b) &&& b = b := by
  apply Nat.eq_of_testBit_eq
  intro i
  simp only [Nat.testBit_and, Nat.testBit_or]
  cases b.testBit i <;> simp

theorem or_keeps_mask (x z y : Nat) (h : x &&& y = y) : (x ||| z) &&& y = y := by
  apply Nat.eq_of_testBit_eq
  intro i
  have hb := congrArg (fun v => v.testBit i) h
  simp only [Nat.testBit_and, Nat.testBit_or] at hb ⊢
  cases hy : y.testBit i
  · simp [hy]
  · rw [hy] at hb
    simp only [Bool.and_true] at hb
    simp [hy, hb]

/-! ### C1 — `put` -/

/-- C1: for every `put(byte)` on either platform's transport (Nios:
"ready" is status TRDY set; MicroBlaze: "ready" is TX-FIFO-full clear):
ready + empty TX buffer writes the byte straight to hardware, succeeds
and leaves the TX buffer at size 0; ready + non-empty buffer writes the
buffer's front byte to hardware, pops it and pushes the new byte (FIFO
order preserved); busy + non-full buffer pushes the byte and succeeds;
and `put` fails exactly when the buffer is full and the hardware busy,
in which case the buffer is unchanged. -/
theorem C1_put_cases (u : NiosUart) (v : MbUart) (status mstatus data : Nat)
    (r : NiosPutResult) (s : MbPutResult)
    (hu : u.txQueue.Inv) (hv : v.txQueue.Inv)
    (hr : r = u.put status data) (hs : s = v.put mstatus data) :
    (status &&& ALTERA_AVALON_UART_STATUS_TRDY_MSK ≠ 0 → u.txQueue.size = 0 →
      r.rc = 0 ∧ r.txdataWrites = [data] ∧ r.uart.txQueue.size = 0) ∧
    (status &&& ALTERA_AVALON_UART_STATUS_TRDY_MSK ≠ 0 → 0 < u.txQueue.size →
      r.rc = 0 ∧ r.txdataWrites = [u.txQueue.toList.headD 0] ∧
      r.uart.txQueue.toList = u.txQueue.toList.tail ++ [data]) ∧
    (status &&& ALTERA_AVALON_UART_STATUS_TRDY_MSK = 0 → u.txQueue.fullQ = false →
      r.rc = 0 ∧ r.txdataWrites = [] ∧
      r.uart.txQueue.toList = u.txQueue.toList ++ [data]) ∧
    (r.rc ≠ 0 ↔
      status &&& ALTERA_AVALON_UART_STATUS_TRDY_MSK = 0 ∧ u.txQueue.fullQ = true) ∧
    (r.rc ≠ 0 → r.uart.txQueue = u.txQueue) ∧
    (mstatus &&& XUL_SR_TX_FIFO_FULL = 0 → v.txQueue.size = 0 →
      s.rc = 0 ∧ s.txdataWrites = [data] ∧ s.uart.txQueue.size = 0) ∧
    (mstatus &&& XUL_SR_TX_FIFO_FULL = 0 → 0 < v.txQueue.size →
      s.rc = 0 ∧ s.txdataWrites = [v.txQueue.toList.headD 0] ∧
      s.uart.txQueue.toList = v.txQueue.toList.tail ++ [data]) ∧
    (mstatus &&& XUL_SR_TX_FIFO_FULL ≠ 0 → v.txQueue.fullQ = false →
      s.rc = 0 ∧ s.txdataWrites = [] ∧
      s.uart.txQueue.toList = v.txQueue.toList ++ [data]) ∧
    (s.rc ≠ 0 ↔
      mstatus &&& XUL_SR_TX_FIFO_FULL ≠ 0 ∧ v.txQueue.fullQ = true) ∧
    (s.rc ≠ 0 → s.uart.txQueue = v.txQueue) := by
  subst hr hs
  refine ⟨?_, ?_, ?_, ?_, ?_, ?_, ?_, ?_, ?_, ?_⟩
  · intro hready hsz
    have hemp : u.txQueue.emptyQ = true := by simp [FixedQueue.emptyQ, hsz]
    simp [NiosUart.put, hready, hemp, hsz]
  · intro hready hpos
    have hemp : u.txQueue.emptyQ = false := by
      simp only [FixedQueue.emptyQ, decide_eq_false_iff_not]
      omega
    obtain ⟨hrot, hpeek⟩ := rotate_toList u.txQueue data hu hpos
    simp [NiosUart.put, hready, hemp, hrot, hpeek]
  · intro hbusy hnf
    have hsz : u.txQueue.size < u.txQueue.sizeMax := by
      simp only [FixedQueue.fullQ, decide_eq_false_iff_not] at hnf
      omega
    simp [NiosUart.put, hbusy, hnf, toList_push u.txQueue data hu hsz]
  · by_cases h1 : status &&& ALTERA_AVALON_UART_STATUS_TRDY_MSK = 0
    · by_cases h2 : u.txQueue.fullQ = true
      · have hrc : (u.put status data).rc = 1 := by simp [NiosUart.put, h1, h2]
        simp [hrc, h1, h2]
      · have hrc : (u.put status data).rc = 0 := by simp [NiosUart.put, h1, h2]
        simp [hrc, h1, h2]
    · have hrc : (u.put status data).rc = 0 := by
        by_cases he : u.txQueue.emptyQ <;> simp [NiosUart.put, h1, he]
      simp [hrc, h1]
  · intro hrc
    by_cases h1 : status &&& ALTERA_AVALON_UART_STATUS_TRDY_MSK = 0
    · by_cases h2 : u.txQueue.fullQ = true
      · simp [NiosUart.put, h1, h2]
      · exact absurd (by simp [NiosUart.put, h1, h2]) hrc
    · exact absurd (by by_cases he : u.txQueue.emptyQ <;> simp [NiosUart.put, h1, he]) hrc
  · intro hready hsz
    have hemp : v.txQueue.emptyQ = true := by simp [FixedQueue.emptyQ, hsz]
    simp [MbUart.put, hready, hemp, hsz]
  · intro hready hpos
    have hemp : v.txQueue.emptyQ = false := by
      simp only [FixedQueue.emptyQ, decide_eq_false_iff_not]
      omega
    obtain ⟨hrot, hpeek⟩ := rotate_toList v.txQueue data hv hpos
    simp [MbUart.put, hready, hemp, hrot, hpeek]
  · intro hbusy hnf
    have hsz : v.txQueue.size < v.txQueue.sizeMax := by
      simp only [FixedQueue.fullQ, decide_eq_false_iff_not] at hnf
      omega
    simp [MbUart.put, hbusy, hnf, toList_push v.txQueue data hv hsz]
  · by_cases h1 : mstatus &&& XUL_SR_TX_FIFO_FULL = 0
    · have hrc : (v.put mstatus data).rc = 0 := by
        by_cases he : v.txQueue.emptyQ <;> simp [MbUart.put, h1, he]
      simp [hrc, h1]
    · by_cases h2 : v.txQueue.fullQ = true
      · have hrc : (v.put mstatus data).rc = 1 := by simp [MbUart.put, h1, h2]
        simp [hrc, h1, h2]
      · have hrc : (v.put mstatus data).rc = 0 := by simp [MbUart.put, h1, h2]
        simp [hrc, h1, h2]
  · intro hrc
    by_cases h1 : mstatus &&& XUL_SR_TX_FIFO_FULL = 0
    · exact absurd (by by_cases he : v.txQueue.emptyQ <;> simp [MbUart.put, h1, he]) hrc
    · by_cases h2 : v.txQueue.fullQ = true
      · simp [MbUart.put, h1, h2]
      · exact absurd (by simp [MbUart.put, h1, h2]) hrc

/-- Concrete instance of C1: the fast path on both platforms (ready
hardware, empty TX buffer) succeeds, sends the byte directly and leaves
the TX buffer at size 0. -/
theorem C1_put_cases_witness :
    ((mkNios 4 4).put 0x40 42).rc = 0 ∧
    ((mkNios 4 4).put 0x40 42).txdataWrites = [42] ∧
    ((mkNios 4 4).put 0x40 42).uart.txQueue.size = 0 ∧
    ((mkMb 4 4).put 0 42).rc = 0 ∧
    ((mkMb 4 4).put 0 42).uart.txQueue.size = 0 := by
  have h := C1_put_cases (mkNios 4 4) (mkMb 4 4) 0x40 0 42 _ _
    (by decide) (by decide) rfl rfl
  obtain ⟨hn, _⟩ := h.1 (by decide) (by decide)
  refine ⟨hn, (h.1 (by decide) (by decide)).2.1, (h.1 (by decide) (by decide)).2.2, ?_, ?_⟩
  · exact ((h.2.2.2.2.2.1) (by decide) (by decide)).1
  · exact ((h.2.2.2.2.2.1) (by decide) (by decide)).2.2

/-! ### C3 — overrun on a full RX buffer -/

/-- C3: a receive-interrupt servicing step with a full RX buffer consumes
the byte from the hardware RX register (the RXDATA read still happens)
but stores nothing: the RX queue is unchanged and the sticky overrun bit
is set.  Concretely (second conjunct), with RX capacity 2, delivering the
bytes 10, 20, 30 through three invocations of the interrupt service
routine leaves the RX queue holding exactly [10, 20] in arrival order,
`overrunErrorOccurred()` is false after the 2nd byte and true after the
3rd, and `clear()` then makes it false again with both buffers empty.
The third conjunct is the same full-buffer discard on the MicroBlaze
handler's receive loop. -/
theorem C3_rx_overrun_discard (m : NiosMachine) (hfull : m.uart.rxQueue.fullQ = true) :
    ((niosReceiveInterrupt m).uart.rxQueue = m.uart.rxQueue ∧
     (niosReceiveInterrupt m).rxReads = m.rxReads + 1 ∧
     (niosReceiveInterrupt m).uart.overrunErrorOccurred = true) ∧
    (let m0 : NiosMachine :=
      { uart := mkNios 4 2, statusReg := ALTERA_AVALON_UART_STATUS_RRDY_MSK,
        rxData := 10, statusWrites := [], txdataWrites := [], controlWrites := [],
        rxReads := 0 }
     let m1 := niosInterruptServiceRoutine m0
     let m2 := niosInterruptServiceRoutine { m1 with rxData := 20 }
     let m3 := niosInterruptServiceRoutine { m2 with rxData := 30 }
     m2.uart.rxQueue.toList = [10, 20] ∧
     m2.uart.overrunErrorOccurred = false ∧
     m3.uart.rxQueue.toList = [10, 20] ∧
     m3.rxReads = 3 ∧
     m3.uart.overrunErrorOccurred = true ∧
     (m3.uart.clearU).overrunErrorOccurred = false ∧
     (m3.uart.clearU).rxQueue.toList = [] ∧
     (m3.uart.clearU).txQueue.toList = []) ∧
    (let n0 : MbMachine :=
      { uart := { mkMb 2 2 with rxQueue := ((FixedQueue.mkQueue 2).push 10).push 20 }
        rxFifo := [30], txFifoCount := 0, errBits := 0, sent := [], intrEnabled := true }
     (mbReceiveInterrupt n0).uart.rxQueue.toList = [10, 20] ∧
     (mbReceiveInterrupt n0).rxFifo = [] ∧
     (mbReceiveInterrupt n0).uart.lastError &&& XUL_SR_OVERRUN_ERROR ≠ 0) := by
  refine ⟨⟨?_, ?_, ?_⟩, by decide, by decide⟩
  · unfold niosReceiveInterrupt
    rw [if_pos hfull]
  · unfold niosReceiveInterrupt
    rw [if_pos hfull]
  · unfold niosReceiveInterrupt
    rw [if_pos hfull]
    simp [NiosUart.overrunErrorOccurred, or_and_self_mask, ALTERA_AVALON_UART_STATUS_ROE_MSK]

/-- Concrete instance of C3's general conjunct: a full capacity-2 RX
queue, one more delivered byte. -/
theorem C3_rx_overrun_discard_witness :
    (niosReceiveInterrupt
      { uart := { mkNios 4 2 with rxQueue := ((FixedQueue.mkQueue 2).push 1).push 2 }
        statusReg := ALTERA_AVALON_UART_STATUS_RRDY_MSK, rxData := 9
        statusWrites := [], txdataWrites := [], controlWrites := [], rxReads := 0
        }).uart.overrunErrorOccurred = true :=
  (C3_rx_overrun_discard
    { uart := { mkNios 4 2 with rxQueue := ((FixedQueue.mkQueue 2).push 1).push 2 }
      statusReg := ALTERA_AVALON_UART_STATUS_RRDY_MSK, rxData := 9
      statusWrites := [], txdataWrites := [], controlWrites := [], rxReads := 0 }
    (by decide)).1.2.2

/-! ### C8 — all-or-nothing bulk read/write -/

/-- `MbUart::writeToTxFifo` only moves bytes from the front of the TX
queue into the hardware FIFO: the bytes sent followed by the remaining
queue contents are exactly the old queue contents. -/
theorem mbWriteToTxFifoLoop_conserves (fuel : Nat) (m : MbMachine)
    (h : m.uart.txQueue.Inv) :
    ∃ δ, (mbWriteToTxFifoLoop fuel m).sent = m.sent ++ δ ∧
      δ ++ (mbWriteToTxFifoLoop fuel m).uart.txQueue.toList = m.uart.txQueue.toList ∧
      (mbWriteToTxFifoLoop fuel m).uart.txQueue.Inv ∧
      (mbWriteToTxFifoLoop fuel m).uart.rxQueue = m.uart.rxQueue ∧
      (mbWriteToTxFifoLoop fuel m).uart.lastError = m.uart.lastError := by
  induction fuel generalizing m with
  | zero => exact ⟨[], by simp [mbWriteToTxFifoLoop], by simp [mbWriteToTxFifoLoop], h, rfl, rfl⟩
  | succ fuel ih =>
    by_cases hst : mbStatus m &&& XUL_SR_TX_FIFO_FULL ≠ 0
    · have heq : mbWriteToTxFifoLoop (fuel + 1) m = m := by
        unfold mbWriteToTxFifoLoop
        rw [if_pos hst]
      rw [heq]
      exact ⟨[], by simp, by simp, h, rfl, rfl⟩
    · by_cases hemp : m.uart.txQueue.emptyQ = true
      · have heq : mbWriteToTxFifoLoop (fuel + 1) m = m := by
          unfold mbWriteToTxFifoLoop
          rw [if_neg hst, if_pos hemp]
        rw [heq]
        exact ⟨[], by simp, by simp, h, rfl, rfl⟩
      · have hs : 0 < m.uart.txQueue.size := by
          simp only [FixedQueue.emptyQ, decide_eq_true_eq] at hemp
          omega
        have hcons := toList_cons m.uart.txQueue h hs
        have heq : mbWriteToTxFifoLoop (fuel + 1) m
            = mbWriteToTxFifoLoop fuel
              { m with
                txFifoCount := m.txFifoCount + 1
                sent := m.sent ++ [m.uart.txQueue.peek]
                uart := { m.uart with txQueue := m.uart.txQueue.pop } } := by
          conv_lhs => rw [mbWriteToTxFifoLoop]
          rw [if_neg hst, if_neg hemp]
        rw [heq]
        obtain ⟨δ, hsent, hlist, hinv, hrx, herr⟩ := ih
          { m with
            txFifoCount := m.txFifoCount + 1
            sent := m.sent ++ [m.uart.txQueue.peek]
            uart := { m.uart with txQueue := m.uart.txQueue.pop } }
          (inv_pop m.uart.txQueue h hs)
        refine ⟨m.uart.txQueue.peek :: δ, ?_, ?_, hinv, hrx, herr⟩
        · rw [hsent]
          simp
        · rw [List.cons_append, hlist]
          exact hcons.symm

/-- C8: `read(buf, n)` succeeds iff the RX buffer already holds at least
`n` bytes, removing exactly the first `n` bytes in FIFO order; `write(buf,
n)` succeeds iff the TX buffer has at least `n` bytes of free capacity,
appending all of `buf` in order; on failure nothing is transferred.  The
conjuncts cover the Nios `read`/`write`, the MicroBlaze `read` (same
body), and the MicroBlaze `write`, whose trailing `writeToTxFifo()` may
additionally move front bytes of the TX queue into the hardware FIFO
(order conserved: sent bytes ++ remaining queue = old queue ++ enqueued
bytes on success, and = old queue on failure — no byte of `buf` is
enqueued when it fails). -/
theorem C8_bulk_read_write (u : NiosUart) (v : MbUart) (w : MbMachine)
    (n : Nat) (buf : List Nat)
    (h1 : u.rxQueue.Inv) (h2 : u.txQueue.Inv) (h3 : v.rxQueue.Inv)
    (h4 : w.uart.txQueue.Inv) :
    (n ≤ u.rxQueue.size →
      (u.read n).1 = 0 ∧ (u.read n).2.1 = u.rxQueue.toList.take n ∧
      (u.read n).2.2.rxQueue.toList = u.rxQueue.toList.drop n ∧
      (u.read n).2.2.txQueue = u.txQueue) ∧
    (u.rxQueue.size < n → u.read n = (1, [], u)) ∧
    ((u.read n).1 = 0 ↔ n ≤ u.rxQueue.size) ∧
    (buf.length ≤ u.txQueue.availableSize →
      (u.write buf).rc = 0 ∧
      (u.write buf).uart.txQueue.toList = u.txQueue.toList ++ buf) ∧
    (u.txQueue.availableSize < buf.length →
      (u.write buf).rc = 1 ∧ (u.write buf).uart.txQueue = u.txQueue) ∧
    ((u.write buf).rc = 0 ↔ buf.length ≤ u.txQueue.availableSize) ∧
    (n ≤ v.rxQueue.size →
      (v.read n).1 = 0 ∧ (v.read n).2.1 = v.rxQueue.toList.take n ∧
      (v.read n).2.2.rxQueue.toList = v.rxQueue.toList.drop n) ∧
    (v.rxQueue.size < n → v.read n = (1, [], v)) ∧
    ((mbWrite w buf).1 = 0 ↔ buf.length ≤ w.uart.txQueue.availableSize) ∧
    (buf.length ≤ w.uart.txQueue.availableSize →
      ∃ δ, (mbWrite w buf).2.sent = w.sent ++ δ ∧
        δ ++ (mbWrite w buf).2.uart.txQueue.toList = w.uart.txQueue.toList ++ buf) ∧
    (w.uart.txQueue.availableSize < buf.length →
      ∃ δ, (mbWrite w buf).2.sent = w.sent ++ δ ∧
        δ ++ (mbWrite w buf).2.uart.txQueue.toList = w.uart.txQueue.toList) := by
  refine ⟨?_, ?_, ?_, ?_, ?_, ?_, ?_, ?_, ?_, ?_, ?_⟩
  · intro hn
    obtain ⟨p1, p2, _, _⟩ := popN_spec n u.rxQueue h1 hn
    simp [NiosUart.read, hn, p1, p2]
  · intro hn
    have : ¬ n ≤ u.rxQueue.size := by omega
    simp [NiosUart.read, this]
  · by_cases hn : n ≤ u.rxQueue.size
    · simp [NiosUart.read, hn]
    · simp [NiosUart.read, hn]
  · intro hlen
    have hcap : u.txQueue.size + buf.length ≤ u.txQueue.sizeMax := by
      have := h2.2.1
      simp only [FixedQueue.availableSize] at hlen
      omega
    obtain ⟨p1, _, _⟩ := pushAll_spec buf u.txQueue h2 hcap
    simp [NiosUart.write, hlen, p1]
  · intro hlen
    have : ¬ buf.length ≤ u.txQueue.availableSize := by omega
    simp [NiosUart.write, this]
  · by_cases hlen : buf.length ≤ u.txQueue.availableSize
    · simp [NiosUart.write, hlen]
    · simp [NiosUart.write, hlen]
  · intro hn
    obtain ⟨p1, p2, _, _⟩ := popN_spec n v.rxQueue h3 hn
    simp [MbUart.read, hn, p1, p2]
  · intro hn
    have : ¬ n ≤ v.rxQueue.size := by omega
    simp [MbUart.read, this]
  · by_cases hlen : buf.length ≤ w.uart.txQueue.availableSize
    · simp [mbWrite, hlen]
    · simp [mbWrite, hlen]
  · intro hlen
    have hcap : w.uart.txQueue.size + buf.length ≤ w.uart.txQueue.sizeMax := by
      have := h4.2.1
      simp only [FixedQueue.availableSize] at hlen
      omega
    obtain ⟨p1, pinv, _⟩ := pushAll_spec buf w.uart.txQueue h4 hcap
    obtain ⟨δ, q1, q2, _, _, _⟩ := mbWriteToTxFifoLoop_conserves XUL_FIFO_SIZE
      { w with uart := { w.uart with txQueue := w.uart.txQueue.pushAll buf } } (by simpa using pinv)
    refine ⟨δ, ?_, ?_⟩
    · simpa [mbWrite, hlen, mbWriteToTxFifo] using q1
    · rw [← p1]
      simpa [mbWrite, hlen, mbWriteToTxFifo] using q2
  · intro hlen
    have hle : ¬ buf.length ≤ w.uart.txQueue.availableSize := by omega
    obtain ⟨δ, q1, q2, _, _, _⟩ := mbWriteToTxFifoLoop_conserves XUL_FIFO_SIZE w h4
    refine ⟨δ, ?_, ?_⟩
    · simpa [mbWrite, hle, mbWriteToTxFifo] using q1
    · simpa [mbWrite, hle, mbWriteToTxFifo] using q2

/-- Concrete instance of C8: RX queue holding [7, 8], `read` of 2 bytes
succeeds and drains it; `write` of 3 bytes into a capacity-2 TX queue
fails and leaves it unchanged. -/
theorem C8_bulk_read_write_witness :
    (({ mkNios 4 4 with rxQueue := ((FixedQueue.mkQueue 4).push 7).push 8 } : NiosUart).read 2).2.1
        = [7, 8] ∧
    (({ mkNios 2 4 with txQueue := FixedQueue.mkQueue 2 } : NiosUart).write [1, 2, 3]).rc = 1 := by
  have h := C8_bulk_read_write
    { mkNios 4 4 with rxQueue := ((FixedQueue.mkQueue 4).push 7).push 8 }
    (mkMb 4 4)
    { uart := mkMb 4 4, rxFifo := [], txFifoCount := 0, errBits := 0, sent := [], intrEnabled := true }
    2 [1, 2, 3] (by decide) (by decide) (by decide) (by decide)
  have h2 := C8_bulk_read_write
    { mkNios 2 4 with txQueue := FixedQueue.mkQueue 2 }
    (mkMb 4 4)
    { uart := mkMb 4 4, rxFifo := [], txFifoCount := 0, errBits := 0, sent := [], intrEnabled := true }
    2 [1, 2, 3] (by decide) (by decide) (by decide) (by decide)
  constructor
  · have := (h.1 (by decide)).2.1
    rw [this]
    decide
  · exact (h2.2.2.2.2.1 (by decide)).1

/-! ### C2 — interrupt handler error path -/

/-- C2 counterexample: the MicroBlaze handler, on a status with an error
bit latched AND receive data ready AND room in the RX buffer, stores
nothing into the RX buffer — it latches the error, resets the hardware RX
FIFO and returns, skipping the receive/transmit servicing the claim says
still happens on the same invocation. -/
theorem C2_isr_error_counterexample :
    (let n0 : MbMachine :=
      { uart := mkMb 2 2, rxFifo := [55], txFifoCount := 0
        errBits := XUL_SR_OVERRUN_ERROR, sent := [], intrEnabled := false }
     mbStatus n0 &&& n0.uart.errorMask ≠ 0 ∧
     mbStatus n0 &&& XUL_SR_RX_FIFO_VALID_DATA ≠ 0 ∧
     n0.uart.rxQueue.fullQ = false ∧
     (mbInterruptHandler n0).uart.rxQueue.size = 0) := by
  decide

/-- C2 (amended): on a status word with error bits set, the Nios ISR ORs
them into the sticky mask, rewrites the status register to zero, and on
the SAME invocation still drains a ready received byte into the RX buffer
and services the TX buffer per the status bits (front byte written and
popped when non-empty, TRDY interrupt source disabled when empty).  The
MicroBlaze handler instead latches the errors, resets the hardware RX
FIFO and RETURNS: both buffers and the send log are untouched on that
invocation. -/
theorem C2_isr_error_amended (m : NiosMachine) (n : MbMachine)
    (hm : m.statusReg &&& m.uart.errorMask ≠ 0)
    (hn : mbStatus n &&& n.uart.errorMask ≠ 0) :
    ((niosInterruptServiceRoutine m).statusWrites = m.statusWrites ++ [0]) ∧
    ((niosInterruptServiceRoutine m).uart.lastError &&& (m.statusReg &&& m.uart.errorMask)
        = m.statusReg &&& m.uart.errorMask) ∧
    (m.statusReg &&& ALTERA_AVALON_UART_STATUS_RRDY_MSK ≠ 0 →
      m.uart.rxQueue.fullQ = false → m.uart.rxQueue.Inv →
      (niosInterruptServiceRoutine m).uart.rxQueue.toList
        = m.uart.rxQueue.toList ++ [m.rxData]) ∧
    (m.statusReg &&& ALTERA_AVALON_UART_STATUS_TRDY_MSK ≠ 0 →
      m.uart.txQueue.emptyQ = false →
      (niosInterruptServiceRoutine m).txdataWrites
        = m.txdataWrites ++ [m.uart.txQueue.peek] ∧
      (niosInterruptServiceRoutine m).uart.txQueue = m.uart.txQueue.pop) ∧
    (m.statusReg &&& ALTERA_AVALON_UART_STATUS_TRDY_MSK ≠ 0 →
      m.uart.txQueue.emptyQ = true →
      (niosInterruptServiceRoutine m).uart.interruptFlags
        = m.uart.interruptFlags &&& ALTERA_AVALON_UART_CONTROL_TRDY_CLR) ∧
    ((mbInterruptHandler n).uart.lastError
        = n.uart.lastError ||| (mbStatus n &&& n.uart.errorMask)) ∧
    ((mbInterruptHandler n).rxFifo = []) ∧
    ((mbInterruptHandler n).uart.rxQueue = n.uart.rxQueue) ∧
    ((mbInterruptHandler n).uart.txQueue = n.uart.txQueue) ∧
    ((mbInterruptHandler n).sent = n.sent) := by
  have hmb : mbInterruptHandler n =
      { n with
        uart := { n.uart with
          lastError := n.uart.lastError ||| (mbStatus n &&& n.uart.errorMask) }
        rxFifo := []
        intrEnabled := true } := by
    simp only [mbInterruptHandler]
    rw [if_pos hn]
  refine ⟨?_, ?_, ?_, ?_, ?_, by rw [hmb], by rw [hmb], by rw [hmb], by rw [hmb], by rw [hmb]⟩
  · by_cases h2 : m.statusReg &&& ALTERA_AVALON_UART_STATUS_RRDY_MSK ≠ 0 <;>
      by_cases h3 : m.statusReg &&& ALTERA_AVALON_UART_STATUS_TRDY_MSK ≠ 0 <;>
      by_cases hf : m.uart.rxQueue.fullQ = true <;>
      by_cases he : m.uart.txQueue.emptyQ = true <;>
      simp [niosInterruptServiceRoutine, niosReceiveInterrupt, niosTransmitInterrupt,
        hm, h2, h3, hf, he]
  · by_cases h2 : m.statusReg &&& ALTERA_AVALON_UART_STATUS_RRDY_MSK ≠ 0 <;>
      by_cases h3 : m.statusReg &&& ALTERA_AVALON_UART_STATUS_TRDY_MSK ≠ 0 <;>
      by_cases hf : m.uart.rxQueue.fullQ = true <;>
      by_cases he : m.uart.txQueue.emptyQ = true <;>
      simp [niosInterruptServiceRoutine, niosReceiveInterrupt, niosTransmitInterrupt,
        hm, h2, h3, hf, he] <;>
      first
        | exact or_and_self_mask _ _
        | exact or_keeps_mask _ _ _ (or_and_self_mask _ _)
  · intro h2 hf hinv
    have hsz : m.uart.rxQueue.size < m.uart.rxQueue.sizeMax := by
      simp only [FixedQueue.fullQ, decide_eq_false_iff_not] at hf
      omega
    have hp := toList_push m.uart.rxQueue m.rxData hinv hsz
    by_cases h3 : m.statusReg &&& ALTERA_AVALON_UART_STATUS_TRDY_MSK ≠ 0 <;>
      by_cases he : m.uart.txQueue.emptyQ = true <;>
      simp [niosInterruptServiceRoutine, niosReceiveInterrupt, niosTransmitInterrupt,
        hm, h2, h3, hf, he, hp]
  · intro h3 he
    by_cases h2 : m.statusReg &&& ALTERA_AVALON_UART_STATUS_RRDY_MSK ≠ 0 <;>
      by_cases hf : m.uart.rxQueue.fullQ = true <;>
      simp [niosInterruptServiceRoutine, niosReceiveInterrupt, niosTransmitInterrupt,
        hm, h2, h3, hf, he]
  · intro h3 he
    by_cases h2 : m.statusReg &&& ALTERA_AVALON_UART_STATUS_RRDY_MSK ≠ 0 <;>
      by_cases hf : m.uart.rxQueue.fullQ = true <;>
      simp [niosInterruptServiceRoutine, niosReceiveInterrupt, niosTransmitInterrupt,
        hm, h2, h3, hf, he]

/-- Concrete instance of C2 (amended): Nios status = framing error + RRDY
+ TRDY, one byte in the TX queue, room in the RX queue: the error is
latched, the status register rewritten to zero, the received byte 99
drained, and the TX front byte 42 written and popped — all in one
invocation. -/
theorem C2_isr_error_amended_witness :
    (niosInterruptServiceRoutine
      { uart := { mkNios 2 2 with txQueue := (FixedQueue.mkQueue 2).push 42 }
        statusReg := ALTERA_AVALON_UART_STATUS_FE_MSK ||| ALTERA_AVALON_UART_STATUS_RRDY_MSK
          ||| ALTERA_AVALON_UART_STATUS_TRDY_MSK
        rxData := 99, statusWrites := [], txdataWrites := [], controlWrites := []
        rxReads := 0 }).statusWrites = [] ++ [0] := by
  have h := C2_isr_error_amended
    { uart := { mkNios 2 2 with txQueue := (FixedQueue.mkQueue 2).push 42 }
      statusReg := ALTERA_AVALON_UART_STATUS_FE_MSK ||| ALTERA_AVALON_UART_STATUS_RRDY_MSK
        ||| ALTERA_AVALON_UART_STATUS_TRDY_MSK
      rxData := 99, statusWrites := [], txdataWrites := [], controlWrites := []
      rxReads := 0 }
    { uart := mkMb 2 2, rxFifo := [55], txFifoCount := 0
      errBits := XUL_SR_OVERRUN_ERROR, sent := [], intrEnabled := false }
    (by decide) (by decide)
  exact h.1

/-! ### C4 — bounded flush -/

/-- A status register that never shows the awaited bits makes the bounded
wait fail after its timeout (`fuel` polls) plus the final double-check:
`timeout_count + 2` ticks after entry. -/
theorem waitBitSet_never (statusAt : Nat → Nat) (mask : Nat)
    (h : ∀ s, statusAt s &&& mask ≠ mask) (t fuel : Nat) :
    waitBitSet statusAt mask t fuel = (1, t + fuel + 2) := by
  induction fuel generalizing t with
  | zero =>
    unfold waitBitSet
    rw [if_neg (h t), if_neg (h (t + 1))]
  | succ fuel ih =>
    unfold waitBitSet
    rw [if_neg (h t), ih (t + 1)]
    have harith : t + 1 + fuel + 2 = t + (fuel + 1) + 2 := by omega
    rw [harith]

/-- With hardware that never reports TRDY, the flush body fails at its
very first bounded wait, `timeout_count + 2` ticks in, whether or not the
TX queue is empty. -/
theorem niosFlushAux_never_ready (statusAt : Nat → Nat) (timeout_count : Nat)
    (h : ∀ s, statusAt s &&& ALTERA_AVALON_UART_STATUS_TRDY_MSK
        ≠ ALTERA_AVALON_UART_STATUS_TRDY_MSK)
    (fuel : Nat) (u : NiosUart) (sent : List Nat) (t : Nat) :
    (niosFlushAux statusAt timeout_count fuel u sent t).rc = 1 ∧
    (niosFlushAux statusAt timeout_count fuel u sent t).tick = t + timeout_count + 2 := by
  have hw := waitBitSet_never statusAt ALTERA_AVALON_UART_STATUS_TRDY_MSK h t timeout_count
  cases fuel with
  | zero =>
    simp [niosFlushAux, niosFlushFinish, niosFlushFinishTrdy, niosWaitStatusReady, hw]
  | succ fuel =>
    by_cases hemp : u.txQueue.emptyQ = true <;>
      simp [niosFlushAux, niosFlushFinish, niosFlushFinishTrdy, niosWaitStatusReady, hw, hemp]

/-- If the `flush` tail reports success, both waits went through and the
result is the TRDY-disabled state with its control write. -/
theorem niosFlushFinish_success (statusAt : Nat → Nat) (timeout_count : Nat)
    (u : NiosUart) (sent : List Nat) (t : Nat)
    (hrc : (niosFlushFinish statusAt timeout_count u sent t).rc = 0) :
    (niosFlushFinish statusAt timeout_count u sent t).uart.txQueue = u.txQueue ∧
    (niosFlushFinish statusAt timeout_count u sent t).uart.interruptFlags
      = u.interruptFlags &&& ALTERA_AVALON_UART_CONTROL_TRDY_CLR ∧
    (niosFlushFinish statusAt timeout_count u sent t).controlWrites
      = [u.interruptFlags &&& ALTERA_AVALON_UART_CONTROL_TRDY_CLR] := by
  unfold niosFlushFinish niosFlushFinishTrdy niosFlushFinishTmt at hrc ⊢
  split_ifs at hrc ⊢ <;> simp_all

/-- When the flush body reports success, the TX queue has drained and the
TRDY interrupt-source bit has been cleared from `interruptFlags_` and
written out (provided `fuel` bounds the queue size, as `niosFlush`
arranges). -/
theorem niosFlushAux_success (statusAt : Nat → Nat) (timeout_count : Nat)
    (fuel : Nat) (u : NiosUart) (sent : List Nat) (t : Nat)
    (hfuel : u.txQueue.size ≤ fuel)
    (hrc : (niosFlushAux statusAt timeout_count fuel u sent t).rc = 0) :
    (niosFlushAux statusAt timeout_count fuel u sent t).uart.txQueue.size = 0 ∧
    (niosFlushAux statusAt timeout_count fuel u sent t).uart.interruptFlags
      = u.interruptFlags &&& ALTERA_AVALON_UART_CONTROL_TRDY_CLR ∧
    (niosFlushAux statusAt timeout_count fuel u sent t).controlWrites
      = [u.interruptFlags &&& ALTERA_AVALON_UART_CONTROL_TRDY_CLR] := by
  induction fuel generalizing u sent t with
  | zero =>
    have hsz : u.txQueue.size = 0 := by omega
    have heq : niosFlushAux statusAt timeout_count 0 u sent t
        = niosFlushFinish statusAt timeout_count u sent t := rfl
    rw [heq] at hrc ⊢
    obtain ⟨hq, hf, hc⟩ := niosFlushFinish_success statusAt timeout_count u sent t hrc
    exact ⟨by rw [hq, hsz], hf, hc⟩
  | succ fuel ih =>
    by_cases hemp : u.txQueue.emptyQ = true
    · have hsz : u.txQueue.size = 0 := by
        simpa [FixedQueue.emptyQ] using hemp
      have heq : niosFlushAux statusAt timeout_count (fuel + 1) u sent t
          = niosFlushFinish statusAt timeout_count u sent t := by
        conv_lhs => rw [niosFlushAux]
        rw [if_pos hemp]
      rw [heq] at hrc ⊢
      obtain ⟨hq, hf, hc⟩ := niosFlushFinish_success statusAt timeout_count u sent t hrc
      exact ⟨by rw [hq, hsz], hf, hc⟩
    · by_cases hw : (niosWaitStatusReady statusAt ALTERA_AVALON_UART_STATUS_TRDY_MSK
          timeout_count t).1 ≠ 0
      · have heq : niosFlushAux statusAt timeout_count (fuel + 1) u sent t
            = { rc := 1, uart := u, txdataWrites := sent, controlWrites := []
                tick := (niosWaitStatusReady statusAt ALTERA_AVALON_UART_STATUS_TRDY_MSK
                  timeout_count t).2 } := by
          conv_lhs => rw [niosFlushAux]
          rw [if_neg hemp, if_pos hw]
        rw [heq] at hrc
        simp at hrc
      · have heq : niosFlushAux statusAt timeout_count (fuel + 1) u sent t
            = niosFlushAux statusAt timeout_count fuel { u with txQueue := u.txQueue.pop }
                (sent ++ [u.txQueue.peek])
                (niosWaitStatusReady statusAt ALTERA_AVALON_UART_STATUS_TRDY_MSK
                  timeout_count t).2 := by
          conv_lhs => rw [niosFlushAux]
          rw [if_neg hemp, if_neg hw]
        rw [heq] at hrc ⊢
        have hpop : ({ u with txQueue := u.txQueue.pop } : NiosUart).txQueue.size ≤ fuel := by
          simp only [FixedQueue.pop]
          have : u.txQueue.size ≠ 0 := by
            simpa [FixedQueue.emptyQ] using hemp
          omega
        exact ih { u with txQueue := u.txQueue.pop } _ _ hpop hrc

/-- C4 counterexample: the claim fails on the MicroBlaze `flush`.  On
hardware that is idle throughout, `flush` succeeds but performs no
control-register write at all — there is no TX interrupt source for it to
disable (the UART Lite has no per-source TX interrupt enable); and on
hardware that never reports ready with an empty TX queue, the stall is
reported only after `XUL_FIFO_SIZE` frame periods (+2 poll ticks), not
within one frame period. -/
theorem C4_flush_counterexample :
    (mbFlush (fun _ => XUL_SR_TX_FIFO_EMPTY) 87 (mkMb 4 4) 0).rc = 0 ∧
    (mbFlush (fun _ => XUL_SR_TX_FIFO_EMPTY) 87 (mkMb 4 4) 0).ctrlWrites = [] ∧
    (mbFlush (fun _ => 0) 87 (mkMb 4 4) 0).rc = 1 ∧
    (mbFlush (fun _ => 0) 87 (mkMb 4 4) 0).tick = 87 * XUL_FIFO_SIZE + 2 := by
  have hnever : ∀ s : Nat, (fun _ : Nat => 0) s &&& XUL_SR_TX_FIFO_EMPTY
      ≠ XUL_SR_TX_FIFO_EMPTY := by
    intro s
    show (0 : Nat) &&& XUL_SR_TX_FIFO_EMPTY ≠ XUL_SR_TX_FIFO_EMPTY
    decide
  have hw := waitBitSet_never (fun _ => 0) XUL_SR_TX_FIFO_EMPTY hnever
    0 (87 * XUL_FIFO_SIZE)
  refine ⟨by decide, by decide, ?_, ?_⟩ <;>
    simp [mbFlush, mbFlushAux, mbFlushFinish, mkMb, FixedQueue.mkQueue, hw]

/-- C4 (amended, Nios variant): if the hardware never reports TRDY,
`flush` returns the stall failure `1` exactly `timeout_count + 2` ticks
(one frame period plus the final double-check polls) after entry instead
of looping forever; and whenever `flush` returns 0 the TX queue has fully
drained and the TRDY interrupt source has been disabled (bit cleared in
`interruptFlags_` and the value written to the control register).  (The
MicroBlaze `flush` also fails rather than hangs on a timed-out wait, but
on success disables no TX interrupt source — see the counterexample.) -/
theorem C4_flush_amended (statusAt : Nat → Nat) (timeout_count : Nat)
    (u : NiosUart) (t0 : Nat) :
    ((∀ s, statusAt s &&& ALTERA_AVALON_UART_STATUS_TRDY_MSK
        ≠ ALTERA_AVALON_UART_STATUS_TRDY_MSK) →
      (niosFlush statusAt timeout_count u t0).rc = 1 ∧
      (niosFlush statusAt timeout_count u t0).tick = t0 + timeout_count + 2) ∧
    ((niosFlush statusAt timeout_count u t0).rc = 0 →
      (niosFlush statusAt timeout_count u t0).uart.txQueue.size = 0 ∧
      (niosFlush statusAt timeout_count u t0).uart.interruptFlags
        = u.interruptFlags &&& ALTERA_AVALON_UART_CONTROL_TRDY_CLR ∧
      (niosFlush statusAt timeout_count u t0).controlWrites
        = [u.interruptFlags &&& ALTERA_AVALON_UART_CONTROL_TRDY_CLR]) := by
  constructor
  · intro hnever
    exact niosFlushAux_never_ready statusAt timeout_count hnever u.txQueue.size u [] t0
  · intro hrc
    exact niosFlushAux_success statusAt timeout_count u.txQueue.size u [] t0 le_rfl hrc

/-- Concrete instance of C4 (amended): a transport with one queued byte
and dead hardware stalls out with `rc = 1` after `5 + 2` ticks; on live
hardware (TRDY and TMT always set) flush succeeds and the control
register is written with the TRDY-disabled flag value. -/
theorem C4_flush_amended_witness :
    (niosFlush (fun _ => 0) 5 { mkNios 2 2 with txQueue := (FixedQueue.mkQueue 2).push 7 } 0).rc
        = 1 ∧
    (niosFlush (fun _ => 0) 5 { mkNios 2 2 with txQueue := (FixedQueue.mkQueue 2).push 7 } 0).tick
        = 0 + 5 + 2 ∧
    (niosFlush (fun _ => 0x60) 5 (mkNios 2 2) 0).controlWrites
        = [(mkNios 2 2).interruptFlags &&& ALTERA_AVALON_UART_CONTROL_TRDY_CLR] :=
  ⟨((C4_flush_amended (fun _ => 0) 5
      { mkNios 2 2 with txQueue := (FixedQueue.mkQueue 2).push 7 } 0).1
      (by
        intro s
        show (0 : Nat) &&& ALTERA_AVALON_UART_STATUS_TRDY_MSK
          ≠ ALTERA_AVALON_UART_STATUS_TRDY_MSK
        decide)).1,
   ((C4_flush_amended (fun _ => 0) 5
      { mkNios 2 2 with txQueue := (FixedQueue.mkQueue 2).push 7 } 0).1
      (by
        intro s
        show (0 : Nat) &&& ALTERA_AVALON_UART_STATUS_TRDY_MSK
          ≠ ALTERA_AVALON_UART_STATUS_TRDY_MSK
        decide)).2,
   ((C4_flush_amended (fun _ => 0x60) 5 (mkNios 2 2) 0).2 (by decide)).2.2⟩

end Sdpses
